import Mathlib

/-!
Shallow embedding of the inventory-consistency core of the Pay-roll
repository (`Payroll/services.py` and `Payroll/models.py`).

Quantities are modelled as rationals (the SQLite columns are floats; all
spec scenarios use decimal values that are exact in both models).
Database CHECK constraints from `models.py` (`bundles_produced > 0`,
`quantity >= 0`) are modelled as commit/flush-time failures that roll the
transaction back, matching SQLite's enforcement and the
`except SQLAlchemyError: rollback` handlers in `services.py`.
-/

namespace Payroll

/-- The `transaction_type` column of `MaterialTransaction`
(`'restock'`, `'production'`, `'adjustment'`). -/
inductive TransactionType
  | production
  | restock
  | adjustment
deriving DecidableEq, Repr

/-- Row of the `raw_material` table (`models.RawMaterial`). -/
structure RawMaterial where
  id : Nat
  name : String
  quantity : ℚ
  unit : String
  unit_price : ℚ
deriving DecidableEq, Repr

/-- Row of the `production_log` table (`models.ProductionLog`). -/
structure ProductionLog where
  id : Nat
  date : Int
  bundles_produced : Int
  notes : Option String
  is_deleted : Bool
deriving DecidableEq, Repr

/-- Row of the `material_transaction` table (`models.MaterialTransaction`). -/
structure MaterialTransaction where
  id : Nat
  material_id : Nat
  transaction_type : TransactionType
  quantity_change : ℚ
  quantity_before : ℚ
  quantity_after : ℚ
  production_log_id : Option Nat
  notes : String
  created_at : Int
deriving DecidableEq, Repr

/-- Row of the `recipe` table (`models.Recipe`). -/
structure RecipeRow where
  id : Nat
  material_id : Nat
  quantity_per_bundle : ℚ
  is_active : Bool
deriving DecidableEq, Repr

/-- The database state touched by the production/inventory services.
`next_log_id` and `next_txn_id` model the autoincrement primary keys;
`today`/`now` model `datetime.date.today()` / `datetime.datetime.utcnow()`
used for column defaults. -/
structure DBState where
  materials : List RawMaterial
  production_logs : List ProductionLog
  transactions : List MaterialTransaction
  recipes : List RecipeRow
  next_log_id : Nat
  next_txn_id : Nat
  today : Int
  now : Int
deriving DecidableEq, Repr

/-- In-place mutation of the first row matched by a query, as performed by
`material_db.quantity -= deduction` or `log.is_deleted = True` on the
object returned by `.first()` / `.get()`. -/
def updateFirst (p : α → Bool) (f : α → α) : List α → List α
  | [] => []
  | x :: xs => if p x then f x :: xs else x :: updateFirst p f xs

/-- Python dict assignment `recipe_dict[name] = qty`: updates the value if
the key is present (keeping its position), otherwise appends the pair. -/
def dictInsert (k : String) (v : ℚ) : List (String × ℚ) → List (String × ℚ)
  | [] => [(k, v)]
  | (k', v') :: rest => if k' == k then (k', v) :: rest else (k', v') :: dictInsert k v rest

/-- The hardcoded fallback recipe in `ProductionService.get_active_recipe`. -/
def defaultRecipe : List (String × ℚ) :=
  [("Wood Splints", 0.25), ("Chemical Paste", 0.7), ("Cardboard Sheets", 0.12), ("Glue", 0.0)]

/-- `ProductionService.get_active_recipe`: the active recipe as an ordered
name-to-quantity-per-bundle dictionary, falling back to `defaultRecipe`
when no active recipe rows are configured. -/
def get_active_recipe (st : DBState) : List (String × ℚ) :=
  let recipe_items := st.recipes.filter (fun r => r.is_active)
  if recipe_items.isEmpty then
    defaultRecipe
  else
    recipe_items.foldl (fun acc item =>
      match st.materials.find? (fun m => m.id == item.material_id) with
      | some m => dictInsert m.name item.quantity_per_bundle acc
      | none => acc) []

/-- One element of the `missing_materials` list built by
`ProductionService.check_material_availability`. -/
structure Shortage where
  name : String
  required : ℚ
  available : ℚ
  shortage : ℚ
deriving DecidableEq, Repr

/-- The `missing_materials` accumulation loop of
`ProductionService.check_material_availability`. -/
def missing_for (st : DBState) (quantity : Int) : List (String × ℚ) → List Shortage
  | [] => []
  | (material_name, amount_per_bundle) :: rest =>
    let required_amount := amount_per_bundle * (quantity : ℚ)
    match st.materials.find? (fun m => m.name == material_name) with
    | none =>
      { name := material_name, required := required_amount,
        available := 0, shortage := required_amount - 0 } :: missing_for st quantity rest
    | some material_db =>
      if material_db.quantity < required_amount then
        { name := material_name, required := required_amount,
          available := material_db.quantity,
          shortage := required_amount - material_db.quantity } :: missing_for st quantity rest
      else
        missing_for st quantity rest

/-- `ProductionService.check_material_availability`: read-only availability
check; the second component is the (unchanged) database state. -/
def check_material_availability (st : DBState) (quantity : Int) :
    (Bool × List Shortage) × DBState :=
  let missing_materials := missing_for st quantity (get_active_recipe st)
  ((missing_materials.length == 0, missing_materials), st)

/-- Result of one pass of the material-update loops inside
`create_production` / `undo_production`; `ok` records whether every
updated row still satisfies the `quantity >= 0` CHECK constraint, which
is verified when the surrounding transaction commits. -/
structure LoopResult where
  mats : List RawMaterial
  txns : List MaterialTransaction
  next_txn_id : Nat
  ok : Bool
deriving DecidableEq, Repr

/-- The deduction loop of `ProductionService.create_production`: for each
recipe item, deduct `amount_per_bundle * quantity` from the material (if
it exists) and record a `'production'` ledger entry. -/
def runDeductions (q : Int) (logId : Nat) (now : Int) :
    List (String × ℚ) → List RawMaterial → Nat → LoopResult
  | [], mats, nid => ⟨mats, [], nid, true⟩
  | (material_name, amount_per_bundle) :: rest, mats, nid =>
    match mats.find? (fun m => m.name == material_name) with
    | none => runDeductions q logId now rest mats nid
    | some m =>
      let deduction := amount_per_bundle * (q : ℚ)
      let txn : MaterialTransaction :=
        { id := nid, material_id := m.id, transaction_type := .production,
          quantity_change := -deduction, quantity_before := m.quantity,
          quantity_after := m.quantity - deduction,
          production_log_id := some logId,
          notes := "Production of " ++ toString q ++ " bundles", created_at := now }
      let r := runDeductions q logId now rest
        (updateFirst (fun x => x.name == material_name)
          (fun x => { x with quantity := x.quantity - deduction }) mats) (nid + 1)
      ⟨r.mats, txn :: r.txns, r.next_txn_id, decide (0 ≤ m.quantity - deduction) && r.ok⟩

/-- Result of `ProductionService.create_production`:
`(True, None, new_log)`, `(False, missing_materials, None)` or the
`except SQLAlchemyError` branch `(False, [{'error': ...}], None)`. -/
inductive CreateResult
  | ok (log : ProductionLog)
  | insufficient (missing : List Shortage)
  | dbError
deriving DecidableEq, Repr

/-- Whether a `CreateResult` is the success case. -/
def CreateResult.isOk : CreateResult → Bool
  | .ok _ => true
  | _ => false

/-- `ProductionService.create_production`: check availability, insert the
production log (the flush enforces the `bundles_produced > 0` CHECK
constraint; on violation the transaction rolls back), run the deduction
loop and commit. -/
def create_production (st : DBState) (quantity : Int) (notes : Option String) :
    CreateResult × DBState :=
  let check := (check_material_availability st quantity).1
  if !check.1 then
    (.insufficient check.2, st)
  else if quantity ≤ 0 then
    (.dbError, st)
  else
    let new_log : ProductionLog :=
      { id := st.next_log_id, date := st.today, bundles_produced := quantity,
        notes := notes, is_deleted := false }
    let recipe := get_active_recipe st
    let r := runDeductions quantity new_log.id st.now recipe st.materials st.next_txn_id
    if r.ok then
      (.ok new_log,
       { st with materials := r.mats,
                 production_logs := st.production_logs ++ [new_log],
                 transactions := st.transactions ++ r.txns,
                 next_log_id := st.next_log_id + 1,
                 next_txn_id := r.next_txn_id })
    else
      (.dbError, st)

/-- The `'production'` transactions tied to one production log, as queried
by `undo_production` and `get_production_cost`. -/
def prodTxnsFor (st : DBState) (logId : Nat) : List MaterialTransaction :=
  st.transactions.filter (fun t =>
    t.production_log_id == some logId && decide (t.transaction_type = TransactionType.production))

/-- The restore loop of `ProductionService.undo_production`: for each
`'production'` transaction of the log, add the deducted amount back
(`material.quantity -= transaction.quantity_change`) and record an
`'adjustment'` reversal entry. -/
def runRestores (logId : Nat) (now : Int) :
    List MaterialTransaction → List RawMaterial → Nat → LoopResult
  | [], mats, nid => ⟨mats, [], nid, true⟩
  | t :: rest, mats, nid =>
    match mats.find? (fun m => m.id == t.material_id) with
    | none => runRestores logId now rest mats nid
    | some material =>
      let reversal : MaterialTransaction :=
        { id := nid, material_id := material.id, transaction_type := .adjustment,
          quantity_change := -t.quantity_change, quantity_before := material.quantity,
          quantity_after := material.quantity - t.quantity_change,
          production_log_id := some logId,
          notes := "Reversal of production log #" ++ toString logId, created_at := now }
      let r := runRestores logId now rest
        (updateFirst (fun x => x.id == t.material_id)
          (fun x => { x with quantity := x.quantity - t.quantity_change }) mats) (nid + 1)
      ⟨r.mats, reversal :: r.txns, r.next_txn_id,
       decide (0 ≤ material.quantity - t.quantity_change) && r.ok⟩

/-- Result of `ProductionService.undo_production`. -/
inductive UndoResult
  | ok
  | notFound
  | dbError
deriving DecidableEq, Repr

/-- `ProductionService.undo_production`: fail if the log is missing or
already soft-deleted; otherwise restore every material touched by the
log's `'production'` transactions, append `'adjustment'` reversal entries,
mark the log deleted and commit. -/
def undo_production (st : DBState) (logId : Nat) : UndoResult × DBState :=
  match st.production_logs.find? (fun l => l.id == logId) with
  | none => (.notFound, st)
  | some log =>
    if log.is_deleted then
      (.notFound, st)
    else
      let txns := prodTxnsFor st logId
      let r := runRestores logId st.now txns st.materials st.next_txn_id
      if r.ok then
        (.ok,
         { st with materials := r.mats,
                   production_logs := updateFirst (fun l => l.id == logId)
                     (fun l => { l with is_deleted := true }) st.production_logs,
                   transactions := st.transactions ++ r.txns,
                   next_txn_id := r.next_txn_id })
      else
        (.dbError, st)

/-- Result of `InventoryService.restock_material`. -/
inductive RestockResult
  | ok (message : String)
  | notFound
  | dbError
deriving DecidableEq, Repr

/-- `InventoryService.restock_material`: add stock to a material and record
a `'restock'` ledger entry; the `quantity >= 0` CHECK constraint is
verified at commit. -/
def restock_material (st : DBState) (materialId : Nat) (quantity : ℚ)
    (notes : Option String) : RestockResult × DBState :=
  match st.materials.find? (fun m => m.id == materialId) with
  | none => (.notFound, st)
  | some material =>
    let quantity_before := material.quantity
    let txn : MaterialTransaction :=
      { id := st.next_txn_id, material_id := materialId, transaction_type := .restock,
        quantity_change := quantity, quantity_before := quantity_before,
        quantity_after := material.quantity + quantity, production_log_id := none,
        notes := notes.getD ("Restocked " ++ toString quantity ++ " " ++ material.unit),
        created_at := st.now }
    if decide (0 ≤ material.quantity + quantity) then
      (.ok ("Added " ++ toString quantity ++ " " ++ material.unit ++ " of " ++ material.name),
       { st with materials := updateFirst (fun x => x.id == materialId)
                   (fun x => { x with quantity := x.quantity + quantity }) st.materials,
                 transactions := st.transactions ++ [txn],
                 next_txn_id := st.next_txn_id + 1 })
    else
      (.dbError, st)

/-- Python's `round(x, 2)` used by the report functions (ties are rounded
half-up here; no claim depends on tie behaviour). -/
def round2 (x : ℚ) : ℚ := (round (x * 100) : ℤ) / 100

/-- `ProductionService.get_production_cost`: sum of
`abs(quantity_change) * material.unit_price` over the log's
`'production'` transactions, skipping transactions whose material row is
missing. -/
def get_production_cost (st : DBState) (logId : Nat) : ℚ :=
  (prodTxnsFor st logId).foldl (fun total_cost t =>
    match st.materials.find? (fun m => m.id == t.material_id) with
    | some material => total_cost + |t.quantity_change| * material.unit_price
    | none => total_cost) 0

/-- Optional date-range filter used by the report queries
(`column >= start_date` / `column <= end_date` when the bound is given). -/
def inRange (d : Int) (start_date end_date : Option Int) : Bool :=
  (match start_date with | some s => decide (s ≤ d) | none => true) &&
  (match end_date with | some e => decide (d ≤ e) | none => true)

/-- Return value of `ReportService.get_production_summary`. -/
structure ProductionSummary where
  total_production_runs : Nat
  total_bundles : Int
  total_cost : ℚ
  avg_bundles_per_run : ℚ
  start_date : Option Int
  end_date : Option Int
deriving DecidableEq, Repr

/-- `ReportService.get_production_summary`: aggregate the non-deleted
production logs in the date range. -/
def get_production_summary (st : DBState) (start_date end_date : Option Int) :
    ProductionSummary :=
  let logs := st.production_logs.filter (fun l => !l.is_deleted && inRange l.date start_date end_date)
  let total_bundles := (logs.map (fun l => l.bundles_produced)).sum
  let total_cost := (logs.map (fun l => get_production_cost st l.id)).sum
  { total_production_runs := logs.length,
    total_bundles := total_bundles,
    total_cost := round2 total_cost,
    avg_bundles_per_run :=
      if logs.length ≠ 0 then round2 ((total_bundles : ℚ) / (logs.length : ℚ)) else 0,
    start_date := start_date,
    end_date := end_date }

/-- Return value of `ReportService.get_material_consumption`. -/
structure ConsumptionReport where
  material_name : String
  total_consumed : ℚ
  unit : String
  transaction_count : Nat
  total_cost : ℚ
deriving DecidableEq, Repr

/-- `ReportService.get_material_consumption`: total absolute
`'production'` consumption of one material in the date range. -/
def get_material_consumption (st : DBState) (materialId : Nat)
    (start_date end_date : Option Int) : ConsumptionReport :=
  let txns := st.transactions.filter (fun t =>
    t.material_id == materialId &&
    decide (t.transaction_type = TransactionType.production) &&
    inRange t.created_at start_date end_date)
  let total_consumed := (txns.map (fun t => |t.quantity_change|)).sum
  match st.materials.find? (fun m => m.id == materialId) with
  | some material =>
    { material_name := material.name, total_consumed := round2 total_consumed,
      unit := material.unit, transaction_count := txns.length,
      total_cost := round2 (total_consumed * material.unit_price) }
  | none =>
    { material_name := "Unknown", total_consumed := round2 total_consumed,
      unit := "", transaction_count := txns.length, total_cost := 0 }

/-- Bool version of the per-transaction part of well-formedness: every
ledger reference to a production log points below the autoincrement
counter. -/
def txnLogRefOk (t : MaterialTransaction) (n : Nat) : Bool :=
  match t.production_log_id with
  | some i => i < n
  | none => true

/-- Well-formed database states: the uniqueness constraints of
`models.py` (unique material names, primary keys) together with the
`quantity >= 0` / `quantity_per_bundle > 0` CHECK constraints and
freshness of the autoincrement counters. -/
def WF (st : DBState) : Prop :=
  (st.materials.map (fun m => m.name)).Nodup ∧
  (st.materials.map (fun m => m.id)).Nodup ∧
  (st.production_logs.map (fun l => l.id)).Nodup ∧
  (∀ m ∈ st.materials, 0 ≤ m.quantity) ∧
  (∀ l ∈ st.production_logs, l.id < st.next_log_id) ∧
  (∀ t ∈ st.transactions, txnLogRefOk t st.next_log_id = true) ∧
  (∀ r ∈ st.recipes, 0 < r.quantity_per_bundle)

instance : DecidablePred WF := fun st => by
  unfold WF
  infer_instance

/-- The concrete state of the spec scenarios (§8): Wood 500, Chemical 100,
Cardboard 1000, Glue 50, no configured recipe rows, so the fallback
recipe `{Wood: 0.25, Chemical: 0.7, Cardboard: 0.12, Glue: 0}` is active. -/
def demoState : DBState :=
  { materials :=
      [ { id := 1, name := "Wood Splints", quantity := 500, unit := "kg", unit_price := 10 },
        { id := 2, name := "Chemical Paste", quantity := 100, unit := "kg", unit_price := 20 },
        { id := 3, name := "Cardboard Sheets", quantity := 1000, unit := "sheets", unit_price := 2 },
        { id := 4, name := "Glue", quantity := 50, unit := "L", unit_price := 5 } ],
    production_logs := [], transactions := [], recipes := [],
    next_log_id := 1, next_txn_id := 1, today := 0, now := 0 }

/-! ### Helper lemmas about `updateFirst` and `find?` -/

theorem map_updateFirst (p : α → Bool) (f : α → α) (g : α → β) (l : List α)
    (hf : ∀ x, g (f x) = g x) : (updateFirst p f l).map g = l.map g := by
  induction l with
  | nil => rfl
  | cons x xs ih =>
    cases hp : p x with
    | false => simp [updateFirst, hp, ih]
    | true => simp [updateFirst, hp, hf]

theorem find?_updateFirst_of_disj (p q : α → Bool) (f : α → α) (l : List α)
    (hqf : ∀ x, q (f x) = q x) (hpq : ∀ x, q x = true → p x = false) :
    (updateFirst p f l).find? q = l.find? q := by
  induction l with
  | nil => rfl
  | cons x xs ih =>
    cases hp : p x with
    | false =>
      simp only [updateFirst, hp, Bool.false_eq_true, if_false]
      cases hq : q x with
      | true => rw [List.find?_cons_of_pos _ hq, List.find?_cons_of_pos _ hq]
      | false =>
        rw [List.find?_cons_of_neg _ (by simp [hq]), List.find?_cons_of_neg _ (by simp [hq])]
        exact ih
    | true =>
      have hqx : q x = false := by
        cases hq : q x with
        | false => rfl
        | true => rw [hpq x hq] at hp; simp at hp
      simp only [updateFirst, hp, if_true]
      rw [List.find?_cons_of_neg _ (by simp [hqf, hqx]),
          List.find?_cons_of_neg _ (by simp [hqx])]

theorem find?_updateFirst_self (p : α → Bool) (f : α → α) (l : List α)
    (hpf : ∀ x, p (f x) = p x) :
    (updateFirst p f l).find? p = (l.find? p).map f := by
  induction l with
  | nil => rfl
  | cons x xs ih =>
    cases hp : p x with
    | false =>
      simp only [updateFirst, hp, Bool.false_eq_true, if_false]
      rw [List.find?_cons_of_neg _ (by simp [hp]), List.find?_cons_of_neg _ (by simp [hp])]
      exact ih
    | true =>
      simp only [updateFirst, hp, if_true]
      rw [List.find?_cons_of_pos _ (by simp [hpf, hp]), List.find?_cons_of_pos _ hp]
      rfl

theorem find?_updateFirst_of_found (p q : α → Bool) (f : α → α) (l : List α) (a : α)
    (hfind : l.find? p = some a) (hqa : q a = false) (hqf : ∀ x, q (f x) = q x) :
    (updateFirst p f l).find? q = l.find? q := by
  induction l with
  | nil => simp at hfind
  | cons x xs ih =>
    cases hp : p x with
    | true =>
      rw [List.find?_cons_of_pos _ hp] at hfind
      injection hfind with hxa
      subst hxa
      simp only [updateFirst, hp, if_true]
      rw [List.find?_cons_of_neg _ (by simp [hqf, hqa]),
          List.find?_cons_of_neg _ (by simp [hqa])]
    | false =>
      rw [List.find?_cons_of_neg _ (by simp [hp])] at hfind
      simp only [updateFirst, hp, Bool.false_eq_true, if_false]
      cases hq : q x with
      | true => rw [List.find?_cons_of_pos _ hq, List.find?_cons_of_pos _ hq]
      | false =>
        rw [List.find?_cons_of_neg _ (by simp [hq]), List.find?_cons_of_neg _ (by simp [hq])]
        exact ih hfind

theorem find?_congr_of_map_eq {l l' : List α} (g : α → β) (p : β → Bool)
    (h : l.map g = l'.map g) :
    (l.find? (fun x => p (g x))).map g = (l'.find? (fun x => p (g x))).map g := by
  induction l generalizing l' with
  | nil => cases l' with
    | nil => rfl
    | cons y ys => simp at h
  | cons x xs ih =>
    cases l' with
    | nil => simp at h
    | cons y ys =>
      simp only [List.map_cons, List.cons.injEq] at h
      obtain ⟨h1, h2⟩ := h
      cases hp : p (g x) with
      | true =>
        rw [List.find?_cons_of_pos (p := fun z => p (g z)) _ hp,
            List.find?_cons_of_pos (p := fun z => p (g z)) _
              (by show p (g y) = true; rw [← h1]; exact hp)]
        simpa using h1
      | false =>
        rw [List.find?_cons_of_neg (p := fun z => p (g z)) _ (by simp [hp]),
            List.find?_cons_of_neg (p := fun z => p (g z)) _ (by simp [← h1, hp])]
        exact ih h2

theorem find?_append_of_none (p : α → Bool) (l1 l2 : List α)
    (h : ∀ x ∈ l1, p x = false) : (l1 ++ l2).find? p = l2.find? p := by
  induction l1 with
  | nil => rfl
  | cons x xs ih =>
    rw [List.cons_append, List.find?_cons_of_neg _ (by simp [h x (by simp)])]
    exact ih (fun y hy => h y (by simp [hy]))

theorem find?_eq_some_of_mem_of_nodup (g : α → β) (l : List α) (m : α)
    [DecidableEq β]
    (hmem : m ∈ l) (hnd : (l.map g).Nodup) :
    l.find? (fun x => decide (g x = g m)) = some m := by
  induction l with
  | nil => simp at hmem
  | cons x xs ih =>
    rcases List.mem_cons.mp hmem with h | h
    · subst h
      rw [List.find?_cons_of_pos _ (by simp)]
    · have hx : g x ≠ g m := by
        intro he
        have : g m ∈ xs.map g := List.mem_map_of_mem g h
        rw [← he] at this
        simp only [List.map_cons, List.nodup_cons] at hnd
        exact hnd.1 this
      rw [List.find?_cons_of_neg _ (by simp [hx])]
      exact ih h (by simp only [List.map_cons, List.nodup_cons] at hnd; exact hnd.2)

/-! ### Projections and transfer lemmas for material rows -/

/-- The immutable part of a material row: everything except `quantity`. -/
def matKey (m : RawMaterial) : Nat × String × String × ℚ := (m.id, m.name, m.unit, m.unit_price)

theorem find?_name_matKey {l l' : List RawMaterial} (h : l.map matKey = l'.map matKey)
    (n : String) :
    (l.find? (fun m => m.name == n)).map matKey
      = (l'.find? (fun m => m.name == n)).map matKey :=
  find?_congr_of_map_eq matKey (fun k => k.2.1 == n) h

theorem find?_id_matKey {l l' : List RawMaterial} (h : l.map matKey = l'.map matKey)
    (k : Nat) :
    (l.find? (fun m => m.id == k)).map matKey
      = (l'.find? (fun m => m.id == k)).map matKey :=
  find?_congr_of_map_eq matKey (fun x => x.1 == k) h

theorem exists_of_find?_name {l l' : List RawMaterial} (h : l.map matKey = l'.map matKey)
    {n : String} {m' : RawMaterial} (hf : l'.find? (fun m => m.name == n) = some m') :
    ∃ m'', l.find? (fun m => m.name == n) = some m'' ∧ m''.id = m'.id := by
  have hc := find?_name_matKey h n
  rw [hf] at hc
  cases hfl : l.find? (fun m => m.name == n) with
  | none => rw [hfl] at hc; simp at hc
  | some m'' =>
    rw [hfl] at hc
    refine ⟨m'', rfl, ?_⟩
    simp only [matKey, Option.map_some', Option.some.injEq, Prod.mk.injEq] at hc
    exact hc.1

theorem found_id_ne (mats : List RawMaterial)
    (hids : (mats.map (fun m => m.id)).Nodup)
    {n1 n2 : String} (hne : n1 ≠ n2) {m1 m2 : RawMaterial}
    (h1 : mats.find? (fun x => x.name == n1) = some m1)
    (h2 : mats.find? (fun x => x.name == n2) = some m2) : m1.id ≠ m2.id := by
  intro he
  have hm1 := List.mem_of_find?_eq_some h1
  have hm2 := List.mem_of_find?_eq_some h2
  have e1 : m1.name = n1 := by have := List.find?_some h1; simpa using this
  have e2 : m2.name = n2 := by have := List.find?_some h2; simpa using this
  have hm : m1 = m2 := List.inj_on_of_nodup_map hids hm1 hm2 he
  exact hne (by rw [← e1, ← e2, hm])

theorem find?_id_updateFirst (p : RawMaterial → Bool) (f : RawMaterial → RawMaterial)
    (l : List RawMaterial) (m : RawMaterial)
    (hids : (l.map (fun x => x.id)).Nodup)
    (hfind : l.find? p = some m)
    (hf : ∀ x, (f x).id = x.id) :
    (updateFirst p f l).find? (fun x => x.id == m.id) = some (f m) := by
  induction l with
  | nil => simp at hfind
  | cons x xs ih =>
    cases hp : p x with
    | true =>
      rw [List.find?_cons_of_pos _ hp] at hfind
      injection hfind with hxm
      subst hxm
      simp only [updateFirst, hp, if_true]
      rw [List.find?_cons_of_pos _ (by simp [hf])]
    | false =>
      rw [List.find?_cons_of_neg _ (by simp [hp])] at hfind
      have hmx : m ∈ xs := List.mem_of_find?_eq_some hfind
      have hne : x.id ≠ m.id := by
        intro he
        simp only [List.map_cons, List.nodup_cons] at hids
        exact hids.1 (he ▸ List.mem_map_of_mem (fun y => y.id) hmx)
      simp only [updateFirst, hp, Bool.false_eq_true, if_false]
      rw [List.find?_cons_of_neg _ (by simp [hne])]
      exact ih (by simp only [List.map_cons, List.nodup_cons] at hids; exact hids.2) hfind

/-! ### Structure of the `create_production` deduction loop -/

theorem runDeductions_map_matKey (q : Int) (logId : Nat) (now : Int) :
    ∀ (items : List (String × ℚ)) (mats : List RawMaterial) (nid : Nat),
      (runDeductions q logId now items mats nid).mats.map matKey = mats.map matKey := by
  intro items
  induction items with
  | nil => intro mats nid; rfl
  | cons hd tl ih =>
    intro mats nid
    obtain ⟨n0, per0⟩ := hd
    cases hp : mats.find? (fun m => m.name == n0) with
    | none => simp only [runDeductions, hp]; exact ih mats nid
    | some m0 =>
      simp only [runDeductions, hp]
      rw [ih]
      exact map_updateFirst _ _ _ _ (fun x => rfl)

theorem runDeductions_find?_frame (q : Int) (logId : Nat) (now : Int) :
    ∀ (items : List (String × ℚ)) (mats : List RawMaterial) (nid : Nat) (n : String),
      (∀ p ∈ items, p.1 ≠ n) →
      (runDeductions q logId now items mats nid).mats.find? (fun x => x.name == n)
        = mats.find? (fun x => x.name == n) := by
  intro items
  induction items with
  | nil => intro mats nid n _; rfl
  | cons hd tl ih =>
    intro mats nid n hn
    obtain ⟨n0, per0⟩ := hd
    have hn0 : n0 ≠ n := hn (n0, per0) (by simp)
    cases hp : mats.find? (fun m => m.name == n0) with
    | none =>
      simp only [runDeductions, hp]
      exact ih mats nid n (fun p hp' => hn p (by simp [hp']))
    | some m0 =>
      simp only [runDeductions, hp]
      rw [ih _ _ n (fun p hp' => hn p (by simp [hp']))]
      exact find?_updateFirst_of_disj _ _ _ _ (fun x => rfl)
        (fun x hx => by
          have hxn : x.name = n := by simpa using hx
          simp only [hxn, beq_eq_false_iff_ne, ne_eq]
          exact fun h => hn0 h.symm)

theorem runDeductions_find?_frame_id (q : Int) (logId : Nat) (now : Int) :
    ∀ (items : List (String × ℚ)) (mats : List RawMaterial) (nid : Nat) (k : Nat),
      (∀ p ∈ items, ∀ m, mats.find? (fun x => x.name == p.1) = some m → m.id ≠ k) →
      (runDeductions q logId now items mats nid).mats.find? (fun x => x.id == k)
        = mats.find? (fun x => x.id == k) := by
  intro items
  induction items with
  | nil => intro mats nid k _; rfl
  | cons hd tl ih =>
    intro mats nid k hk
    obtain ⟨n0, per0⟩ := hd
    cases hp : mats.find? (fun m => m.name == n0) with
    | none =>
      simp only [runDeductions, hp]
      exact ih mats nid k (fun p hp' m hm => hk p (by simp [hp']) m hm)
    | some m0 =>
      have hm0 : m0.id ≠ k := hk (n0, per0) (by simp) m0 hp
      have hmk : (updateFirst (fun x => x.name == n0)
          (fun x => { x with quantity := x.quantity - per0 * (q : ℚ) }) mats).map matKey
          = mats.map matKey := map_updateFirst _ _ _ _ (fun x => rfl)
      simp only [runDeductions, hp]
      rw [ih _ _ k ?_]
      · exact find?_updateFirst_of_found (fun x => x.name == n0)
          (fun x => x.id == k)
          (fun x => { x with quantity := x.quantity - per0 * (q : ℚ) }) mats m0 hp
          (by simp [hm0]) (fun x => rfl)
      · intro p hp' m' hm'
        obtain ⟨m'', hm'', hid⟩ := exists_of_find?_name hmk.symm hm'
        rw [← hid]
        exact hk p (by simp [hp']) m'' hm''

/-- Observable content of a ledger entry apart from its autoincrement id,
material reference, notes and timestamp. -/
def txnData (t : MaterialTransaction) : TransactionType × ℚ × Option Nat × ℚ × ℚ :=
  (t.transaction_type, t.quantity_change, t.production_log_id, t.quantity_before,
   t.quantity_after)

/-! ### Specialised `updateFirst` lemmas for quantity updates keyed by name -/

theorem find?_name_updateFirst_qty_ne (n n' : String) (d : ℚ) (mats : List RawMaterial)
    (hne : n' ≠ n) :
    (updateFirst (fun x => x.name == n)
        (fun x => { x with quantity := x.quantity - d }) mats).find? (fun x => x.name == n')
      = mats.find? (fun x => x.name == n') :=
  find?_updateFirst_of_disj (fun x => x.name == n) (fun x => x.name == n')
    (fun x => { x with quantity := x.quantity - d }) mats (fun x => rfl)
    (fun x hx => by
      have hxn : x.name = n' := by simpa using hx
      simp only [hxn, beq_eq_false_iff_ne, ne_eq]
      exact hne)

theorem find?_name_updateFirst_qty_self (n : String) (d : ℚ) (mats : List RawMaterial) :
    (updateFirst (fun x => x.name == n)
        (fun x => { x with quantity := x.quantity - d }) mats).find? (fun x => x.name == n)
      = (mats.find? (fun x => x.name == n)).map
          (fun x => { x with quantity := x.quantity - d }) :=
  find?_updateFirst_self _ _ _ (fun x => rfl)

theorem find?_id_updateFirst_qty_found (n : String) (d : ℚ) (mats : List RawMaterial)
    (m0 : RawMaterial) (k : Nat)
    (hfind : mats.find? (fun x => x.name == n) = some m0) (hne : m0.id ≠ k) :
    (updateFirst (fun x => x.name == n)
        (fun x => { x with quantity := x.quantity - d }) mats).find? (fun x => x.id == k)
      = mats.find? (fun x => x.id == k) :=
  find?_updateFirst_of_found _ _ _ _ m0 hfind (by simp [hne]) (fun x => rfl)

theorem find?_id_updateFirst_qty_self (n : String) (d : ℚ) (mats : List RawMaterial)
    (m : RawMaterial) (hids : (mats.map (fun x => x.id)).Nodup)
    (hfind : mats.find? (fun x => x.name == n) = some m) :
    (updateFirst (fun x => x.name == n)
        (fun x => { x with quantity := x.quantity - d }) mats).find? (fun x => x.id == m.id)
      = some { m with quantity := m.quantity - d } :=
  find?_id_updateFirst _ _ mats m hids hfind (fun x => rfl)

theorem map_updateFirst_qty (p : RawMaterial → Bool) (d : ℚ) (g : RawMaterial → β)
    (hg : ∀ x : RawMaterial, g { x with quantity := x.quantity - d } = g x)
    (mats : List RawMaterial) :
    (updateFirst p (fun x => { x with quantity := x.quantity - d }) mats).map g
      = mats.map g :=
  map_updateFirst _ _ _ _ hg

theorem runDeductions_txns_chars (q : Int) (logId : Nat) (now : Int) :
    ∀ (items : List (String × ℚ)) (mats : List RawMaterial) (nid : Nat),
      (items.map Prod.fst).Nodup →
      ∀ t ∈ (runDeductions q logId now items mats nid).txns,
        t.transaction_type = TransactionType.production ∧
        t.production_log_id = some logId ∧
        t.quantity_after = t.quantity_before + t.quantity_change ∧
        ∃ p ∈ items, ∃ m, mats.find? (fun x => x.name == p.1) = some m ∧
          t.material_id = m.id ∧ t.quantity_change = -(p.2 * (q : ℚ)) := by
  intro items
  induction items with
  | nil => intro mats nid _ t ht; simp [runDeductions] at ht
  | cons hd tl ih =>
    intro mats nid hnd t ht
    obtain ⟨n0, per0⟩ := hd
    simp only [List.map_cons, List.nodup_cons] at hnd
    cases hp : mats.find? (fun m => m.name == n0) with
    | none =>
      simp only [runDeductions, hp] at ht
      obtain ⟨h1, h2, h3, p, hpmem, m, hfind, hmid, hchg⟩ := ih mats nid hnd.2 t ht
      exact ⟨h1, h2, h3, p, by simp [hpmem], m, hfind, hmid, hchg⟩
    | some m0 =>
      simp only [runDeductions, hp, List.mem_cons] at ht
      rcases ht with h | h
      · subst h
        exact ⟨rfl, rfl, by ring, (n0, per0), by simp, m0, hp, rfl, rfl⟩
      · obtain ⟨h1, h2, h3, p, hpmem, m, hfind, hmid, hchg⟩ := ih _ _ hnd.2 t h
        have hpn : p.1 ≠ n0 := fun he => hnd.1 (he ▸ List.mem_map_of_mem Prod.fst hpmem)
        have hfm : mats.find? (fun x => x.name == p.1) = some m :=
          (find?_name_updateFirst_qty_ne n0 p.1 (per0 * (q : ℚ)) mats hpn).symm.trans hfind
        exact ⟨h1, h2, h3, p, by simp [hpmem], m, hfm, hmid, hchg⟩

theorem runDeductions_spec (q : Int) (logId : Nat) (now : Int) :
    ∀ (items : List (String × ℚ)) (mats : List RawMaterial) (nid : Nat),
      (items.map Prod.fst).Nodup →
      (mats.map (fun m => m.name)).Nodup →
      (mats.map (fun m => m.id)).Nodup →
      ∀ pn pv, (pn, pv) ∈ items → ∀ m, mats.find? (fun x => x.name == pn) = some m →
        (runDeductions q logId now items mats nid).mats.find? (fun x => x.name == pn)
            = some { m with quantity := m.quantity - pv * (q : ℚ) } ∧
        (runDeductions q logId now items mats nid).mats.find? (fun x => x.id == m.id)
            = some { m with quantity := m.quantity - pv * (q : ℚ) } ∧
        ((runDeductions q logId now items mats nid).txns.filter
            (fun t => t.material_id == m.id)).map txnData
          = [(TransactionType.production, -(pv * (q : ℚ)), some logId, m.quantity,
              m.quantity - pv * (q : ℚ))] := by
  intro items
  induction items with
  | nil => intro mats nid _ _ _ pn pv hpmem; simp at hpmem
  | cons hd tl ih =>
    intro mats nid hnd hnames hids pn pv hpmem m hfind
    obtain ⟨n0, per0⟩ := hd
    simp only [List.map_cons, List.nodup_cons] at hnd
    rcases List.mem_cons.mp hpmem with hph | hptl
    · -- the requested item is the head of the recipe
      injection hph with he1 he2
      subst he1
      subst he2
      simp only [runDeductions, hfind]
      have hdisj : ∀ p' ∈ tl, ∀ m',
          (updateFirst (fun x => x.name == pn)
            (fun x => { x with quantity := x.quantity - pv * (q : ℚ) }) mats).find?
              (fun x => x.name == p'.1) = some m' →
          m'.id ≠ m.id := by
        intro p' hp' m' hm'f
        have hpn' : p'.1 ≠ pn := fun he => hnd.1 (he ▸ List.mem_map_of_mem Prod.fst hp')
        have hfm : mats.find? (fun x => x.name == p'.1) = some m' :=
          (find?_name_updateFirst_qty_ne pn p'.1 (pv * (q : ℚ)) mats hpn').symm.trans hm'f
        exact found_id_ne mats hids hpn' hfm hfind
      refine ⟨?_, ?_, ?_⟩
      · rw [runDeductions_find?_frame q logId now tl _ (nid + 1) pn
          (fun p' hp' he => hnd.1 (he ▸ List.mem_map_of_mem Prod.fst hp'))]
        rw [find?_name_updateFirst_qty_self pn (pv * (q : ℚ)) mats, hfind]
        rfl
      · rw [runDeductions_find?_frame_id q logId now tl _ (nid + 1) m.id hdisj]
        exact find?_id_updateFirst_qty_self pn (pv * (q : ℚ)) mats m hids hfind
      · have htl : ∀ t ∈ (runDeductions q logId now tl
            (updateFirst (fun x => x.name == pn)
              (fun x => { x with quantity := x.quantity - pv * (q : ℚ) }) mats)
            (nid + 1)).txns, (t.material_id == m.id) = false := by
          intro t ht
          obtain ⟨_, _, _, p', hp', m', hm'f, hmid, _⟩ :=
            runDeductions_txns_chars q logId now tl _ (nid + 1) hnd.2 t ht
          have := hdisj p' hp' m' hm'f
          rw [hmid]
          simp [this]
        rw [List.filter_cons]
        simp only [beq_self_eq_true, if_true]
        rw [List.filter_eq_nil_iff.mpr (fun t ht => by simp [htl t ht])]
        rfl
    · -- the requested item lies further down the recipe
      have hpn' : pn ≠ n0 := by
        intro he
        exact hnd.1 (he ▸ List.mem_map_of_mem Prod.fst hptl)
      cases hp0 : mats.find? (fun m => m.name == n0) with
      | none =>
        simp only [runDeductions, hp0]
        exact ih mats nid hnd.2 hnames hids pn pv hptl m hfind
      | some m0 =>
        simp only [runDeductions, hp0]
        have hnames' : ((updateFirst (fun x => x.name == n0)
            (fun x => { x with quantity := x.quantity - per0 * (q : ℚ) }) mats).map
              (fun m => m.name)).Nodup := by
          rw [map_updateFirst_qty (fun x => x.name == n0) (per0 * (q : ℚ))
            (fun m => m.name) (fun x => rfl) mats]
          exact hnames
        have hids' : ((updateFirst (fun x => x.name == n0)
            (fun x => { x with quantity := x.quantity - per0 * (q : ℚ) }) mats).map
              (fun m => m.id)).Nodup := by
          rw [map_updateFirst_qty (fun x => x.name == n0) (per0 * (q : ℚ))
            (fun m => m.id) (fun x => rfl) mats]
          exact hids
        have hfind' : (updateFirst (fun x => x.name == n0)
            (fun x => { x with quantity := x.quantity - per0 * (q : ℚ) }) mats).find?
              (fun x => x.name == pn) = some m :=
          (find?_name_updateFirst_qty_ne n0 pn (per0 * (q : ℚ)) mats hpn').trans hfind
        obtain ⟨g1, g2, g3⟩ := ih _ (nid + 1) hnd.2 hnames' hids' pn pv hptl m hfind'
        refine ⟨g1, g2, ?_⟩
        have hne : m0.id ≠ m.id :=
          found_id_ne mats hids (fun he => hpn' he.symm) hp0 hfind
        rw [List.filter_cons]
        simp only [show ((m0.id == m.id) : Bool) = false by simp [hne], if_false]
        exact g3

/-- Convenience: a found transaction is about the requested material. -/
theorem runDeductions_final_qty (q : Int) (logId : Nat) (now : Int)
    (items : List (String × ℚ)) (mats : List RawMaterial) (nid : Nat)
    (hnd : (items.map Prod.fst).Nodup)
    (hnames : (mats.map (fun m => m.name)).Nodup)
    (hids : (mats.map (fun m => m.id)).Nodup) :
    ∀ t ∈ (runDeductions q logId now items mats nid).txns,
      ((runDeductions q logId now items mats nid).mats.find?
          (fun x => x.id == t.material_id)).map (fun m => m.quantity)
        = some t.quantity_after := by
  intro t ht
  obtain ⟨_, _, _, p, hpmem, m, hfind, hmid, _⟩ :=
    runDeductions_txns_chars q logId now items mats nid hnd t ht
  obtain ⟨_, g2, g3⟩ := runDeductions_spec q logId now items mats nid hnd hnames hids
    p.1 p.2 (by rw [Prod.mk.eta]; exact hpmem) m hfind
  have htf : t ∈ (runDeductions q logId now items mats nid).txns.filter
      (fun t' => t'.material_id == m.id) :=
    List.mem_filter.mpr ⟨ht, by simp [hmid]⟩
  have hdat : txnData t ∈ ((runDeductions q logId now items mats nid).txns.filter
      (fun t' => t'.material_id == m.id)).map txnData := List.mem_map_of_mem txnData htf
  rw [g3] at hdat
  simp only [List.mem_singleton, txnData, Prod.mk.injEq] at hdat
  rw [hmid, g2]
  simp [hdat.2.2.2.2]

/-! ### Structure of the `undo_production` restore loop -/

theorem find?_id_updateFirst_qty_ne (k k' : Nat) (d : ℚ) (mats : List RawMaterial)
    (hne : k' ≠ k) :
    (updateFirst (fun x => x.id == k)
        (fun x => { x with quantity := x.quantity - d }) mats).find? (fun x => x.id == k')
      = mats.find? (fun x => x.id == k') :=
  find?_updateFirst_of_disj (fun x => x.id == k) (fun x => x.id == k')
    (fun x => { x with quantity := x.quantity - d }) mats (fun x => rfl)
    (fun x hx => by
      have hxk : x.id = k' := by simpa using hx
      simp only [hxk, beq_eq_false_iff_ne, ne_eq]
      exact hne)

theorem find?_id_updateFirst_qty_id_self (k : Nat) (d : ℚ) (mats : List RawMaterial) :
    (updateFirst (fun x => x.id == k)
        (fun x => { x with quantity := x.quantity - d }) mats).find? (fun x => x.id == k)
      = (mats.find? (fun x => x.id == k)).map
          (fun x => { x with quantity := x.quantity - d }) :=
  find?_updateFirst_self _ _ _ (fun x => rfl)

theorem runRestores_map_matKey (logId : Nat) (now : Int) :
    ∀ (src : List MaterialTransaction) (mats : List RawMaterial) (nid : Nat),
      (runRestores logId now src mats nid).mats.map matKey = mats.map matKey := by
  intro src
  induction src with
  | nil => intro mats nid; rfl
  | cons t0 tl ih =>
    intro mats nid
    cases hp : mats.find? (fun m => m.id == t0.material_id) with
    | none => simp only [runRestores, hp]; exact ih mats nid
    | some m0 =>
      simp only [runRestores, hp]
      rw [ih]
      exact map_updateFirst_qty _ _ matKey (fun x => rfl) mats

theorem runRestores_txns_chars (logId : Nat) (now : Int) :
    ∀ (src : List MaterialTransaction) (mats : List RawMaterial) (nid : Nat),
      ∀ t' ∈ (runRestores logId now src mats nid).txns,
        t'.transaction_type = TransactionType.adjustment ∧
        t'.production_log_id = some logId ∧
        t'.quantity_after = t'.quantity_before + t'.quantity_change ∧
        ∃ t ∈ src, t'.material_id = t.material_id ∧
          t'.quantity_change = -t.quantity_change := by
  intro src
  induction src with
  | nil => intro mats nid t' ht'; simp [runRestores] at ht'
  | cons t0 tl ih =>
    intro mats nid t' ht'
    cases hp : mats.find? (fun m => m.id == t0.material_id) with
    | none =>
      simp only [runRestores, hp] at ht'
      obtain ⟨h1, h2, h3, t, htmem, hmid, hchg⟩ := ih mats nid t' ht'
      exact ⟨h1, h2, h3, t, by simp [htmem], hmid, hchg⟩
    | some m0 =>
      simp only [runRestores, hp, List.mem_cons] at ht'
      rcases ht' with h | h
      · subst h
        have hm0 : m0.id = t0.material_id := by
          have := List.find?_some hp
          simpa using this
        exact ⟨rfl, rfl, by ring, t0, by simp, hm0, rfl⟩
      · obtain ⟨h1, h2, h3, t, htmem, hmid, hchg⟩ := ih _ _ t' h
        exact ⟨h1, h2, h3, t, by simp [htmem], hmid, hchg⟩

theorem runRestores_txns_map (logId : Nat) (now : Int) :
    ∀ (src : List MaterialTransaction) (mats : List RawMaterial) (nid : Nat),
      (∀ t ∈ src, (mats.find? (fun x => x.id == t.material_id)).isSome = true) →
      (runRestores logId now src mats nid).txns.map
          (fun t => (t.transaction_type, t.material_id, t.quantity_change))
        = src.map (fun t =>
            (TransactionType.adjustment, t.material_id, -t.quantity_change)) := by
  intro src
  induction src with
  | nil => intro mats nid _; rfl
  | cons t0 tl ih =>
    intro mats nid hsome
    cases hp : mats.find? (fun m => m.id == t0.material_id) with
    | none =>
      have := hsome t0 (by simp)
      rw [hp] at this
      simp at this
    | some m0 =>
      simp only [runRestores, hp]
      have hm0 : m0.id = t0.material_id := by
        have := List.find?_some hp
        simpa using this
      have hmk : (updateFirst (fun x => x.id == t0.material_id)
          (fun x => { x with quantity := x.quantity - t0.quantity_change }) mats).map matKey
            = mats.map matKey := map_updateFirst_qty _ _ matKey (fun x => rfl) mats
      rw [List.map_cons, ih _ (nid + 1) ?_]
      · simp [hm0]
      · intro t ht
        have hcongr := find?_id_matKey hmk t.material_id
        have := hsome t (by simp [ht])
        cases hfl : mats.find? (fun x => x.id == t.material_id) with
        | none => rw [hfl] at this; simp at this
        | some mm =>
          rw [hfl] at hcongr
          cases hfl' : (updateFirst (fun x => x.id == t0.material_id)
              (fun x => { x with quantity := x.quantity - t0.quantity_change }) mats).find?
                (fun x => x.id == t.material_id) with
          | none => rw [hfl'] at hcongr; simp at hcongr
          | some _ => simp

theorem runRestores_find?_frame (logId : Nat) (now : Int) :
    ∀ (src : List MaterialTransaction) (mats : List RawMaterial) (nid : Nat) (k : Nat),
      (∀ t ∈ src, t.material_id ≠ k) →
      (runRestores logId now src mats nid).mats.find? (fun x => x.id == k)
        = mats.find? (fun x => x.id == k) := by
  intro src
  induction src with
  | nil => intro mats nid k _; rfl
  | cons t0 tl ih =>
    intro mats nid k hk
    cases hp : mats.find? (fun m => m.id == t0.material_id) with
    | none =>
      simp only [runRestores, hp]
      exact ih mats nid k (fun t ht => hk t (by simp [ht]))
    | some m0 =>
      simp only [runRestores, hp]
      rw [ih _ (nid + 1) k (fun t ht => hk t (by simp [ht]))]
      exact find?_id_updateFirst_qty_ne t0.material_id k t0.quantity_change mats
        (fun he => hk t0 (by simp) he.symm)

theorem runRestores_spec (logId : Nat) (now : Int) :
    ∀ (src : List MaterialTransaction) (mats : List RawMaterial) (nid : Nat),
      (src.map (fun t => t.material_id)).Nodup →
      ∀ t ∈ src, ∀ m, mats.find? (fun x => x.id == t.material_id) = some m →
        (runRestores logId now src mats nid).mats.find? (fun x => x.id == t.material_id)
          = some { m with quantity := m.quantity - t.quantity_change } := by
  intro src
  induction src with
  | nil => intro mats nid _ t ht; simp at ht
  | cons t0 tl ih =>
    intro mats nid hnd t ht m hfind
    simp only [List.map_cons, List.nodup_cons] at hnd
    rcases List.mem_cons.mp ht with hh | htl
    · subst hh
      simp only [runRestores, hfind]
      rw [runRestores_find?_frame logId now tl _ (nid + 1) t.material_id
        (fun t' ht' he => hnd.1 (he ▸ List.mem_map_of_mem (fun x => x.material_id) ht'))]
      rw [find?_id_updateFirst_qty_id_self t.material_id t.quantity_change mats, hfind]
      rfl
    · have hne : t.material_id ≠ t0.material_id := by
        intro he
        exact hnd.1 (he ▸ List.mem_map_of_mem (fun x => x.material_id) htl)
      cases hp0 : mats.find? (fun m => m.id == t0.material_id) with
      | none =>
        simp only [runRestores, hp0]
        exact ih mats nid hnd.2 t htl m hfind
      | some m0 =>
        simp only [runRestores, hp0]
        have hfind' : (updateFirst (fun x => x.id == t0.material_id)
            (fun x => { x with quantity := x.quantity - t0.quantity_change }) mats).find?
              (fun x => x.id == t.material_id) = some m :=
          (find?_id_updateFirst_qty_ne t0.material_id t.material_id t0.quantity_change
            mats hne).trans hfind
        exact ih _ (nid + 1) hnd.2 t htl m hfind'

theorem runRestores_ok (logId : Nat) (now : Int) :
    ∀ (src : List MaterialTransaction) (mats : List RawMaterial) (nid : Nat),
      (src.map (fun t => t.material_id)).Nodup →
      (∀ t ∈ src, ∀ m, mats.find? (fun x => x.id == t.material_id) = some m →
        0 ≤ m.quantity - t.quantity_change) →
      (runRestores logId now src mats nid).ok = true := by
  intro src
  induction src with
  | nil => intro mats nid _ _; rfl
  | cons t0 tl ih =>
    intro mats nid hnd hok
    simp only [List.map_cons, List.nodup_cons] at hnd
    cases hp : mats.find? (fun m => m.id == t0.material_id) with
    | none =>
      simp only [runRestores, hp]
      exact ih mats nid hnd.2 (fun t ht m hm => hok t (by simp [ht]) m hm)
    | some m0 =>
      simp only [runRestores, hp]
      rw [Bool.and_eq_true]
      constructor
      · simpa using hok t0 (by simp) m0 hp
      · refine ih _ (nid + 1) hnd.2 ?_
        intro t ht m hm
        have hne : t.material_id ≠ t0.material_id := by
          intro he
          exact hnd.1 (he ▸ List.mem_map_of_mem (fun x => x.material_id) ht)
        have hfm : mats.find? (fun x => x.id == t.material_id) = some m :=
          (find?_id_updateFirst_qty_ne t0.material_id t.material_id t0.quantity_change
            mats hne).symm.trans hm
        exact hok t (by simp [ht]) m hfm

/-! ### Inversion lemmas for the service operations -/

theorem create_production_ok_elim {st : DBState} {q : Int} {notes : Option String}
    {log : ProductionLog} {st' : DBState}
    (h : create_production st q notes = (.ok log, st')) :
    missing_for st q (get_active_recipe st) = [] ∧ 0 < q ∧
    log = { id := st.next_log_id, date := st.today, bundles_produced := q,
            notes := notes, is_deleted := false } ∧
    (runDeductions q st.next_log_id st.now (get_active_recipe st) st.materials
        st.next_txn_id).ok = true ∧
    st' = { st with
      materials := (runDeductions q st.next_log_id st.now (get_active_recipe st)
        st.materials st.next_txn_id).mats,
      production_logs := st.production_logs ++
        [{ id := st.next_log_id, date := st.today, bundles_produced := q,
           notes := notes, is_deleted := false }],
      transactions := st.transactions ++
        (runDeductions q st.next_log_id st.now (get_active_recipe st) st.materials
          st.next_txn_id).txns,
      next_log_id := st.next_log_id + 1,
      next_txn_id := (runDeductions q st.next_log_id st.now (get_active_recipe st)
        st.materials st.next_txn_id).next_txn_id } := by
  simp only [create_production, check_material_availability] at h
  split at h
  · simp at h
  next hc =>
    split at h
    next hq => simp at h
    next hq =>
      split at h
      next hok =>
        rw [Prod.mk.injEq] at h
        obtain ⟨hl, hs⟩ := h
        injection hl with hl
        refine ⟨?_, by omega, hl.symm, hok, hs.symm⟩
        have : ((missing_for st q (get_active_recipe st)).length == 0) = true := by
          revert hc
          cases (missing_for st q (get_active_recipe st)).length == 0 <;> simp
        simpa [List.length_eq_zero] using this
      next hok => simp at h

theorem create_production_insufficient {st : DBState} {q : Int} {notes : Option String}
    (hne : missing_for st q (get_active_recipe st) ≠ []) :
    create_production st q notes
      = (.insufficient (missing_for st q (get_active_recipe st)), st) := by
  simp only [create_production, check_material_availability]
  have hlen : ((missing_for st q (get_active_recipe st)).length == 0) = false := by
    have := List.length_pos.mpr hne
    simp only [beq_eq_false_iff_ne, ne_eq]
    omega
  rw [hlen]
  simp

theorem undo_production_ok_elim {st : DBState} {logId : Nat} {st' : DBState}
    (h : undo_production st logId = (.ok, st')) :
    ∃ log, st.production_logs.find? (fun l => l.id == logId) = some log ∧
      log.is_deleted = false ∧
      (runRestores logId st.now (prodTxnsFor st logId) st.materials
        st.next_txn_id).ok = true ∧
      st' = { st with
        materials := (runRestores logId st.now (prodTxnsFor st logId) st.materials
          st.next_txn_id).mats,
        production_logs := updateFirst (fun l => l.id == logId)
          (fun l => { l with is_deleted := true }) st.production_logs,
        transactions := st.transactions ++
          (runRestores logId st.now (prodTxnsFor st logId) st.materials
            st.next_txn_id).txns,
        next_txn_id := (runRestores logId st.now (prodTxnsFor st logId) st.materials
          st.next_txn_id).next_txn_id } := by
  unfold undo_production at h
  cases hfl : st.production_logs.find? (fun l => l.id == logId) with
  | none => rw [hfl] at h; simp at h
  | some log =>
    rw [hfl] at h
    simp only at h
    split at h
    next hdel => simp at h
    next hdel =>
      split at h
      next hok =>
        rw [Prod.mk.injEq] at h
        exact ⟨log, rfl, by revert hdel; cases log.is_deleted <;> simp, hok, h.2.symm⟩
      next hok => simp at h

theorem restock_material_ok_elim {st : DBState} {materialId : Nat} {quantity : ℚ}
    {notes : Option String} {msg : String} {st' : DBState}
    (h : restock_material st materialId quantity notes = (.ok msg, st')) :
    ∃ material, st.materials.find? (fun m => m.id == materialId) = some material ∧
      0 ≤ material.quantity + quantity ∧
      st' = { st with
        materials := updateFirst (fun x => x.id == materialId)
          (fun x => { x with quantity := x.quantity + quantity }) st.materials,
        transactions := st.transactions ++
          [{ id := st.next_txn_id, material_id := materialId,
             transaction_type := .restock, quantity_change := quantity,
             quantity_before := material.quantity,
             quantity_after := material.quantity + quantity,
             production_log_id := none,
             notes := notes.getD ("Restocked " ++ toString quantity ++ " " ++ material.unit),
             created_at := st.now }],
        next_txn_id := st.next_txn_id + 1 } := by
  unfold restock_material at h
  cases hfl : st.materials.find? (fun m => m.id == materialId) with
  | none => rw [hfl] at h; simp at h
  | some material =>
    rw [hfl] at h
    simp only at h
    split at h
    next hge =>
      rw [Prod.mk.injEq] at h
      exact ⟨material, rfl, by simpa using hge, h.2.symm⟩
    next hge => simp at h

/-! ### The availability check -/

theorem missing_for_nil_found (st : DBState) (q : Int) :
    ∀ items, missing_for st q items = [] →
      ∀ pn pv, (pn, pv) ∈ items →
        ∃ m, st.materials.find? (fun x => x.name == pn) = some m ∧
          ¬ m.quantity < pv * (q : ℚ) := by
  intro items
  induction items with
  | nil => intro _ pn pv hmem; simp at hmem
  | cons hd tl ih =>
    intro hnil pn pv hmem
    obtain ⟨n0, per0⟩ := hd
    cases hp : st.materials.find? (fun m => m.name == n0) with
    | none =>
      simp only [missing_for, hp] at hnil
      exact absurd hnil (List.cons_ne_nil _ _)
    | some m0 =>
      simp only [missing_for, hp] at hnil
      split at hnil
      · exact absurd hnil (by simp)
      next hnlt =>
        rcases List.mem_cons.mp hmem with hh | htl
        · injection hh with he1 he2
          subst he1
          subst he2
          exact ⟨m0, hp, hnlt⟩
        · exact ih hnil pn pv htl

theorem missing_for_mem (st : DBState) (q : Int) :
    ∀ items pn pv, (pn, pv) ∈ items →
      (st.materials.find? (fun x => x.name == pn) = none →
        ({ name := pn, required := pv * (q : ℚ), available := 0,
           shortage := pv * (q : ℚ) - 0 } : Shortage) ∈ missing_for st q items) ∧
      (∀ m, st.materials.find? (fun x => x.name == pn) = some m →
        m.quantity < pv * (q : ℚ) →
        ({ name := pn, required := pv * (q : ℚ), available := m.quantity,
           shortage := pv * (q : ℚ) - m.quantity } : Shortage) ∈ missing_for st q items) := by
  intro items
  induction items with
  | nil => intro pn pv hmem; simp at hmem
  | cons hd tl ih =>
    intro pn pv hmem
    obtain ⟨n0, per0⟩ := hd
    rcases List.mem_cons.mp hmem with hh | htl
    · injection hh with he1 he2
      subst he1
      subst he2
      constructor
      · intro hnone
        simp only [missing_for, hnone]
        exact List.mem_cons_self _ _
      · intro m hfind hlt
        simp only [missing_for, hfind]
        rw [if_pos hlt]
        exact List.mem_cons_self _ _
    · have htail := ih pn pv htl
      constructor
      · intro hnone
        cases hp : st.materials.find? (fun m => m.name == n0) with
        | none =>
          simp only [missing_for, hp]
          exact List.mem_cons_of_mem _ (htail.1 hnone)
        | some m0 =>
          simp only [missing_for, hp]
          split
          · exact List.mem_cons_of_mem _ (htail.1 hnone)
          · exact htail.1 hnone
      · intro m hfind hlt
        cases hp : st.materials.find? (fun m => m.name == n0) with
        | none =>
          simp only [missing_for, hp]
          exact List.mem_cons_of_mem _ (htail.2 m hfind hlt)
        | some m0 =>
          simp only [missing_for, hp]
          split
          · exact List.mem_cons_of_mem _ (htail.2 m hfind hlt)
          · exact htail.2 m hfind hlt

/-! ### The active recipe: distinct keys, non-negative per-bundle quantities -/

theorem dictInsert_keys_subset (k : String) (v : ℚ) :
    ∀ l : List (String × ℚ), ∀ n, n ∈ (dictInsert k v l).map Prod.fst →
      n ∈ l.map Prod.fst ∨ n = k := by
  intro l
  induction l with
  | nil => intro n hn; simp only [dictInsert, List.map_cons, List.map_nil] at hn; simpa using hn
  | cons hd tl ih =>
    intro n hn
    obtain ⟨k', v'⟩ := hd
    cases he : k' == k with
    | true =>
      simp only [dictInsert, he, if_true] at hn
      simp only [List.map_cons] at hn ⊢
      exact Or.inl hn
    | false =>
      simp only [dictInsert, he, Bool.false_eq_true, if_false, List.map_cons,
        List.mem_cons] at hn
      rcases hn with hn | hn
      · exact Or.inl (by simp [hn])
      · rcases ih n hn with h | h
        · exact Or.inl (by simp [h])
        · exact Or.inr h

theorem dictInsert_keys_nodup (k : String) (v : ℚ) :
    ∀ l : List (String × ℚ), (l.map Prod.fst).Nodup →
      ((dictInsert k v l).map Prod.fst).Nodup := by
  intro l
  induction l with
  | nil => intro _; simp [dictInsert]
  | cons hd tl ih =>
    intro hnd
    obtain ⟨k', v'⟩ := hd
    simp only [List.map_cons, List.nodup_cons] at hnd
    cases he : k' == k with
    | true =>
      simp only [dictInsert, he, if_true, List.map_cons, List.nodup_cons]
      exact hnd
    | false =>
      simp only [dictInsert, he, Bool.false_eq_true, if_false, List.map_cons,
        List.nodup_cons]
      refine ⟨?_, ih hnd.2⟩
      intro hmem
      rcases dictInsert_keys_subset k v tl k' hmem with h | h
      · exact hnd.1 h
      · rw [h] at he; simp at he

theorem dictInsert_values (P : ℚ → Prop) (k : String) (v : ℚ) :
    ∀ l : List (String × ℚ), (∀ x ∈ l, P x.2) → P v →
      ∀ x ∈ dictInsert k v l, P x.2 := by
  intro l
  induction l with
  | nil => intro _ hv x hx; simp only [dictInsert, List.mem_singleton] at hx; simp [hx, hv]
  | cons hd tl ih =>
    intro hl hv x hx
    obtain ⟨k', v'⟩ := hd
    cases he : k' == k with
    | true =>
      simp only [dictInsert, he, if_true, List.mem_cons] at hx
      rcases hx with hx | hx
      · simp [hx, hv]
      · exact hl x (by simp [hx])
    | false =>
      simp only [dictInsert, he, Bool.false_eq_true, if_false, List.mem_cons] at hx
      rcases hx with hx | hx
      · exact hl x (by simp [hx])
      · exact ih (fun y hy => hl y (by simp [hy])) hv x hx

theorem get_active_recipe_keys_nodup (st : DBState) :
    ((get_active_recipe st).map Prod.fst).Nodup := by
  simp only [get_active_recipe]
  by_cases hie : (st.recipes.filter (fun r => r.is_active)).isEmpty = true
  · rw [if_pos hie]; decide
  · rw [if_neg hie]
    have : ∀ (items : List RecipeRow) (acc : List (String × ℚ)),
        (acc.map Prod.fst).Nodup →
        ((items.foldl (fun acc item =>
          match st.materials.find? (fun m => m.id == item.material_id) with
          | some m => dictInsert m.name item.quantity_per_bundle acc
          | none => acc) acc).map Prod.fst).Nodup := by
      intro items
      induction items with
      | nil => intro acc h; simpa using h
      | cons hd tl ih =>
        intro acc h
        simp only [List.foldl_cons]
        cases hp : st.materials.find? (fun m => m.id == hd.material_id) with
        | none => simp only [hp]; exact ih acc h
        | some m => simp only [hp]; exact ih _ (dictInsert_keys_nodup m.name _ acc h)
    exact this _ [] (by simp)

theorem get_active_recipe_nonneg (st : DBState)
    (hr : ∀ r ∈ st.recipes, 0 < r.quantity_per_bundle) :
    ∀ p ∈ get_active_recipe st, 0 ≤ p.2 := by
  simp only [get_active_recipe]
  by_cases hie : (st.recipes.filter (fun r => r.is_active)).isEmpty = true
  · rw [if_pos hie]
    intro p hp
    fin_cases hp <;> norm_num
  · rw [if_neg hie]
    have : ∀ (items : List RecipeRow), (∀ r ∈ items, 0 < r.quantity_per_bundle) →
        ∀ (acc : List (String × ℚ)), (∀ x ∈ acc, 0 ≤ x.2) →
        ∀ p ∈ items.foldl (fun acc item =>
          match st.materials.find? (fun m => m.id == item.material_id) with
          | some m => dictInsert m.name item.quantity_per_bundle acc
          | none => acc) acc, 0 ≤ p.2 := by
      intro items
      induction items with
      | nil => intro _ acc hacc p hp; simpa using hacc p (by simpa using hp)
      | cons hd tl ih =>
        intro hpos acc hacc p hp
        simp only [List.foldl_cons] at hp
        cases hfd : st.materials.find? (fun m => m.id == hd.material_id) with
        | none =>
          rw [hfd] at hp
          exact ih (fun r hr' => hpos r (by simp [hr'])) acc hacc p hp
        | some m =>
          rw [hfd] at hp
          refine ih (fun r hr' => hpos r (by simp [hr'])) _ ?_ p hp
          exact dictInsert_values (fun x => 0 ≤ x) m.name hd.quantity_per_bundle acc hacc
            (le_of_lt (hpos hd (by simp)))
    intro p hp
    refine this _ ?_ [] (by simp) p hp
    intro r hmem
    exact hr r (List.mem_of_mem_filter hmem)

/-! ### Further consequences of the loop lemmas -/

theorem find?_id_of_mem_nodup (mats : List RawMaterial) (m : RawMaterial)
    (hmem : m ∈ mats) (hids : (mats.map (fun x => x.id)).Nodup) :
    mats.find? (fun x => x.id == m.id) = some m := by
  induction mats with
  | nil => simp at hmem
  | cons x xs ih =>
    simp only [List.map_cons, List.nodup_cons] at hids
    rcases List.mem_cons.mp hmem with hh | hxs
    · subst hh
      rw [List.find?_cons_of_pos _ (by simp)]
    · have hne : x.id ≠ m.id := by
        intro he
        exact hids.1 (he ▸ List.mem_map_of_mem (fun y => y.id) hxs)
      rw [List.find?_cons_of_neg _ (by simp [hne])]
      exact ih hxs hids.2

theorem runDeductions_matids_nodup (q : Int) (logId : Nat) (now : Int) :
    ∀ (items : List (String × ℚ)) (mats : List RawMaterial) (nid : Nat),
      (items.map Prod.fst).Nodup →
      (mats.map (fun m => m.id)).Nodup →
      ((runDeductions q logId now items mats nid).txns.map
        (fun t => t.material_id)).Nodup := by
  intro items
  induction items with
  | nil => intro mats nid _ _; simp [runDeductions]
  | cons hd tl ih =>
    intro mats nid hnd hids
    obtain ⟨n0, per0⟩ := hd
    simp only [List.map_cons, List.nodup_cons] at hnd
    cases hp : mats.find? (fun m => m.name == n0) with
    | none =>
      simp only [runDeductions, hp]
      exact ih mats nid hnd.2 hids
    | some m0 =>
      simp only [runDeductions, hp, List.map_cons, List.nodup_cons]
      have hids' : ((updateFirst (fun x => x.name == n0)
          (fun x => { x with quantity := x.quantity - per0 * (q : ℚ) }) mats).map
            (fun m => m.id)).Nodup := by
        rw [map_updateFirst_qty (fun x => x.name == n0) (per0 * (q : ℚ))
          (fun m => m.id) (fun x => rfl) mats]
        exact hids
      refine ⟨?_, ih _ (nid + 1) hnd.2 hids'⟩
      intro hmem
      obtain ⟨t, ht, htid⟩ := List.mem_map.mp hmem
      obtain ⟨_, _, _, p', hp', m', hm'f, hmid, _⟩ :=
        runDeductions_txns_chars q logId now tl _ (nid + 1) hnd.2 t ht
      have hpn : p'.1 ≠ n0 := fun he => hnd.1 (he ▸ List.mem_map_of_mem Prod.fst hp')
      have hfm : mats.find? (fun x => x.name == p'.1) = some m' :=
        (find?_name_updateFirst_qty_ne n0 p'.1 (per0 * (q : ℚ)) mats hpn).symm.trans hm'f
      exact found_id_ne mats hids hpn hfm hp (by rw [← hmid, htid])

theorem runDeductions_before_mem (q : Int) (logId : Nat) (now : Int)
    (items : List (String × ℚ)) (mats : List RawMaterial) (nid : Nat)
    (hnd : (items.map Prod.fst).Nodup)
    (hnames : (mats.map (fun m => m.name)).Nodup)
    (hids : (mats.map (fun m => m.id)).Nodup) :
    ∀ t ∈ (runDeductions q logId now items mats nid).txns,
      ∃ m ∈ mats, t.material_id = m.id ∧ t.quantity_before = m.quantity := by
  intro t ht
  obtain ⟨_, _, _, p, hpmem, m, hfind, hmid, _⟩ :=
    runDeductions_txns_chars q logId now items mats nid hnd t ht
  obtain ⟨_, _, g3⟩ := runDeductions_spec q logId now items mats nid hnd hnames hids
    p.1 p.2 (by rw [Prod.mk.eta]; exact hpmem) m hfind
  have htf : t ∈ (runDeductions q logId now items mats nid).txns.filter
      (fun t' => t'.material_id == m.id) :=
    List.mem_filter.mpr ⟨ht, by simp [hmid]⟩
  have hdat : txnData t ∈ ((runDeductions q logId now items mats nid).txns.filter
      (fun t' => t'.material_id == m.id)).map txnData := List.mem_map_of_mem txnData htf
  rw [g3] at hdat
  simp only [List.mem_singleton, txnData, Prod.mk.injEq] at hdat
  exact ⟨m, List.mem_of_find?_eq_some hfind, hmid, hdat.2.2.2.1⟩

theorem runRestores_final_qty (logId : Nat) (now : Int) :
    ∀ (src : List MaterialTransaction) (mats : List RawMaterial) (nid : Nat),
      (src.map (fun t => t.material_id)).Nodup →
      ∀ t' ∈ (runRestores logId now src mats nid).txns,
        ((runRestores logId now src mats nid).mats.find?
            (fun x => x.id == t'.material_id)).map (fun m => m.quantity)
          = some t'.quantity_after := by
  intro src
  induction src with
  | nil => intro mats nid _ t' ht'; simp [runRestores] at ht'
  | cons t0 tl ih =>
    intro mats nid hnd t' ht'
    simp only [List.map_cons, List.nodup_cons] at hnd
    cases hp : mats.find? (fun m => m.id == t0.material_id) with
    | none =>
      simp only [runRestores, hp] at ht' ⊢
      exact ih mats nid hnd.2 t' ht'
    | some m0 =>
      have hm0 : m0.id = t0.material_id := by
        have := List.find?_some hp
        simpa using this
      simp only [runRestores, hp, List.mem_cons] at ht' ⊢
      rcases ht' with hh | htl
      · subst hh
        simp only
        have hfr : ∀ t ∈ tl, t.material_id ≠ m0.id := by
          intro t ht he
          apply hnd.1
          rw [← hm0, ← he]
          exact List.mem_map_of_mem (fun x => x.material_id) ht
        rw [runRestores_find?_frame logId now tl _ (nid + 1) m0.id hfr]
        rw [hm0, find?_id_updateFirst_qty_id_self t0.material_id t0.quantity_change mats,
          hp]
        rfl
      · exact ih _ (nid + 1) hnd.2 t' htl

theorem undo_production_ok_intro {st : DBState} {logId : Nat} (log : ProductionLog)
    (hfl : st.production_logs.find? (fun l => l.id == logId) = some log)
    (hnd : log.is_deleted = false)
    (hok : (runRestores logId st.now (prodTxnsFor st logId) st.materials
      st.next_txn_id).ok = true) :
    undo_production st logId = (UndoResult.ok,
      { st with
        materials := (runRestores logId st.now (prodTxnsFor st logId) st.materials
          st.next_txn_id).mats,
        production_logs := updateFirst (fun l => l.id == logId)
          (fun l => { l with is_deleted := true }) st.production_logs,
        transactions := st.transactions ++
          (runRestores logId st.now (prodTxnsFor st logId) st.materials
            st.next_txn_id).txns,
        next_txn_id := (runRestores logId st.now (prodTxnsFor st logId) st.materials
          st.next_txn_id).next_txn_id }) := by
  unfold undo_production
  rw [hfl]
  simp only [hnd, Bool.false_eq_true, if_false, hok, if_true]

section ConcreteEvaluation

attribute [local semireducible] Rat.add Rat.mul Rat.sub Rat.inv Rat.ofScientific

/-- The production log created by the §8 scenario `createProduction(100)`. -/
def demoLog : ProductionLog :=
  { id := 1, date := 0, bundles_produced := 100, notes := none, is_deleted := false }

/-- The database state after the §8 scenario `createProduction(100)`. -/
def demoState1 : DBState := (create_production demoState 100 none).2

/-- The source condition of a shortage entry in `check_material_availability`:
`not material_db or material_db.quantity < required_amount`. -/
def insufficientFor (st : DBState) (q : Int) (pn : String) (pv : ℚ) : Bool :=
  match st.materials.find? (fun x => x.name == pn) with
  | none => true
  | some m => decide (m.quantity < pv * (q : ℚ))

/-! ### Claim theorems -/

/-- C8: `check_material_availability` mutates no state: for every state and
quantity, the state component of its result is exactly the input state (its
body performs only reads), whether it reports ok or shortages. -/
theorem check_material_availability_pure (st : DBState) (quantity : Int) :
    (check_material_availability st quantity).2 = st := rfl

/-- C7: for every non-positive quantity, `create_production` fails before any
mutation — the returned state is the input state unchanged and the result is
never the success case (the availability check may fail first; otherwise the
`bundles_produced > 0` CHECK constraint aborts the flush and the transaction
is rolled back). -/
theorem create_production_rejects_nonpositive (st : DBState) (q : Int)
    (notes : Option String) (hq : q ≤ 0) :
    (create_production st q notes).2 = st ∧
    ∀ log, (create_production st q notes).1 ≠ CreateResult.ok log := by
  cases hc : (missing_for st q (get_active_recipe st)).length == 0 with
  | false =>
    constructor
    · simp [create_production, check_material_availability, hc]
    · intro log
      simp [create_production, check_material_availability, hc]
  | true =>
    constructor
    · simp [create_production, check_material_availability, hc, hq]
    · intro log
      simp [create_production, check_material_availability, hc, hq]

/-- Witness for C7 at quantity 0 on the scenario state. -/
theorem create_production_rejects_nonpositive_witness :
    (0 : Int) ≤ 0 ∧ (create_production demoState 0 none).2 = demoState ∧
    ∀ log, (create_production demoState 0 none).1 ≠ CreateResult.ok log :=
  ⟨by decide,
   (create_production_rejects_nonpositive demoState 0 none (by decide)).1,
   (create_production_rejects_nonpositive demoState 0 none (by decide)).2⟩

/-- C5: `undo_production` is idempotent against double invocation: it fails
with the not-found/already-deleted result and leaves the state unchanged
whenever the record is unknown or already soft-deleted, and in particular a
second call right after a successful undo fails that way with no state
change. -/
theorem undo_production_idempotent :
    (∀ (st : DBState) (logId : Nat),
      (∀ l, st.production_logs.find? (fun x => x.id == logId) = some l →
        l.is_deleted = true) →
      undo_production st logId = (UndoResult.notFound, st)) ∧
    (∀ (st : DBState) (logId : Nat) (st1 : DBState),
      undo_production st logId = (UndoResult.ok, st1) →
      undo_production st1 logId = (UndoResult.notFound, st1)) := by
  constructor
  · intro st logId hdel
    unfold undo_production
    cases hfl : st.production_logs.find? (fun l => l.id == logId) with
    | none => rfl
    | some log => simp [hdel log hfl]
  · intro st logId st1 h
    obtain ⟨log, hfl, hnd, hok, hst⟩ := undo_production_ok_elim h
    have hfind1 : st1.production_logs.find? (fun l => l.id == logId)
        = some { log with is_deleted := true } := by
      rw [hst]
      simp only
      rw [find?_updateFirst_self (fun l => l.id == logId)
        (fun l => { l with is_deleted := true }) st.production_logs (fun x => rfl), hfl]
      rfl
    unfold undo_production
    rw [hfind1]
    simp

/-- Witness for C5: undoing the scenario production and then undoing it again. -/
theorem undo_production_idempotent_witness :
    ((∀ l, demoState.production_logs.find? (fun x => x.id == 5) = some l →
        l.is_deleted = true) ∧
      undo_production demoState 5 = (UndoResult.notFound, demoState)) ∧
    (undo_production demoState1 1 = (UndoResult.ok, (undo_production demoState1 1).2) ∧
      undo_production (undo_production demoState1 1).2 1
        = (UndoResult.notFound, (undo_production demoState1 1).2)) :=
  ⟨⟨by decide, undo_production_idempotent.1 demoState 5 (by decide)⟩,
   ⟨by rfl, undo_production_idempotent.2 demoState1 1 _ (by rfl)⟩⟩

/-- C4: whenever some active-recipe material is missing or understocked,
`create_production` fails, returns the shortage list built by the
availability check — which contains name/required/available/shortage data
for every insufficient material — and leaves the state unchanged; in the §8
scenario, `createProduction(200)` fails with exactly
`{Chemical Paste, required 140, available 100, shortage 40}` and the state
is returned unchanged. -/
theorem create_production_shortage_rejects :
    (∀ (st : DBState) (q : Int) (notes : Option String),
      (∃ p ∈ get_active_recipe st, insufficientFor st q p.1 p.2 = true) →
      create_production st q notes
        = (CreateResult.insufficient (missing_for st q (get_active_recipe st)), st) ∧
      ∀ p ∈ get_active_recipe st,
        (st.materials.find? (fun x => x.name == p.1) = none →
          ({ name := p.1, required := p.2 * (q : ℚ), available := 0,
             shortage := p.2 * (q : ℚ) - 0 } : Shortage)
            ∈ missing_for st q (get_active_recipe st)) ∧
        (∀ m, st.materials.find? (fun x => x.name == p.1) = some m →
          m.quantity < p.2 * (q : ℚ) →
          ({ name := p.1, required := p.2 * (q : ℚ), available := m.quantity,
             shortage := p.2 * (q : ℚ) - m.quantity } : Shortage)
            ∈ missing_for st q (get_active_recipe st))) ∧
    create_production demoState 200 none
      = (CreateResult.insufficient
          [{ name := "Chemical Paste", required := 140, available := 100, shortage := 40 }],
         demoState) := by
  constructor
  · intro st q notes hex
    have hne : missing_for st q (get_active_recipe st) ≠ [] := by
      intro hnil
      obtain ⟨p, hpmem, hshort⟩ := hex
      obtain ⟨m, hfind, hnlt⟩ := missing_for_nil_found st q _ hnil p.1 p.2
        (by rw [Prod.mk.eta]; exact hpmem)
      rw [insufficientFor, hfind] at hshort
      exact hnlt (by simpa using hshort)
    refine ⟨create_production_insufficient hne, ?_⟩
    intro p hpmem
    exact missing_for_mem st q _ p.1 p.2 (by rw [Prod.mk.eta]; exact hpmem)
  · rfl

/-- Witness for C4 at the §8 shortage scenario `createProduction(200)`. -/
theorem create_production_shortage_rejects_witness :
    (∃ p ∈ get_active_recipe demoState, insufficientFor demoState 200 p.1 p.2 = true) ∧
    create_production demoState 200 none
      = (CreateResult.insufficient
          (missing_for demoState 200 (get_active_recipe demoState)), demoState) :=
  ⟨by decide,
   (create_production_shortage_rejects.1 demoState 200 none (by decide)).1⟩

/-- Ledger references of a committed state never point at the fresh log id. -/
theorem txnref_not_new (t : MaterialTransaction) (n : Nat)
    (h : txnLogRefOk t n = true) : (t.production_log_id == some n) = false := by
  unfold txnLogRefOk at h
  cases hp : t.production_log_id with
  | none => rfl
  | some i =>
    rw [hp] at h
    simp only [decide_eq_true_eq] at h
    have : i ≠ n := by omega
    simp [this]

/-- Mapping a transaction to its (kind, change) pair factors through `txnData`. -/
theorem map_kind_change (l : List MaterialTransaction) :
    l.map (fun t => (t.transaction_type, t.quantity_change))
      = (l.map txnData).map (fun x => (x.1, x.2.1)) := by
  rw [List.map_map]
  rfl

/-- C2: for every quantity > 0, a successful `create_production` deducts
exactly `quantity_per_bundle * quantity` from each recipe material and
writes exactly one `'production'` ledger entry with
`quantity_change = -(quantity_per_bundle * quantity)` linked to the new log,
per recipe material; in the §8 scenario, `createProduction(100)` succeeds
and leaves Wood 475, Chemical 30, Cardboard 988 and Glue 50. -/
theorem create_production_exact_deduction :
    (∀ (st : DBState) (q : Int) (notes : Option String) (log : ProductionLog)
        (st' : DBState), WF st → 0 < q →
      create_production st q notes = (CreateResult.ok log, st') →
      ∀ p ∈ get_active_recipe st, ∃ m,
        st.materials.find? (fun x => x.name == p.1) = some m ∧
        st'.materials.find? (fun x => x.name == p.1)
          = some { m with quantity := m.quantity - p.2 * (q : ℚ) } ∧
        ((st'.transactions.filter (fun t =>
            t.production_log_id == some log.id && t.material_id == m.id)).map
          (fun t => (t.transaction_type, t.quantity_change)))
          = [(TransactionType.production, -(p.2 * (q : ℚ)))]) ∧
    ((create_production demoState 100 none).1 = CreateResult.ok demoLog ∧
      demoState1.materials.map (fun m => (m.name, m.quantity))
        = [("Wood Splints", 475), ("Chemical Paste", 30),
           ("Cardboard Sheets", 988), ("Glue", 50)]) := by
  constructor
  · intro st q notes log st' hWF hq h p hpmem
    obtain ⟨hnames, hids, hlogsnd, hqty, hlogid, htxnref, hrec⟩ := hWF
    obtain ⟨hmiss, hqpos, hlog, hok, hst'⟩ := create_production_ok_elim h
    obtain ⟨m, hfind, hnlt⟩ := missing_for_nil_found st q _ hmiss p.1 p.2
      (by rw [Prod.mk.eta]; exact hpmem)
    have hknd := get_active_recipe_keys_nodup st
    obtain ⟨g1, g2, g3⟩ := runDeductions_spec q st.next_log_id st.now
      (get_active_recipe st) st.materials st.next_txn_id hknd hnames hids
      p.1 p.2 (by rw [Prod.mk.eta]; exact hpmem) m hfind
    refine ⟨m, hfind, ?_, ?_⟩
    · rw [hst']
      exact g1
    · have hlid : log.id = st.next_log_id := by rw [hlog]
      rw [hst', hlid]
      simp only
      rw [List.filter_append]
      have hold : st.transactions.filter (fun t =>
          t.production_log_id == some st.next_log_id && t.material_id == m.id) = [] := by
        apply List.filter_eq_nil_iff.mpr
        intro t ht
        rw [txnref_not_new t st.next_log_id (htxnref t ht)]
        simp
      have hnew : (runDeductions q st.next_log_id st.now (get_active_recipe st)
            st.materials st.next_txn_id).txns.filter (fun t =>
          t.production_log_id == some st.next_log_id && t.material_id == m.id)
          = (runDeductions q st.next_log_id st.now (get_active_recipe st)
            st.materials st.next_txn_id).txns.filter (fun t =>
          t.material_id == m.id) := by
        apply List.filter_congr
        intro t ht
        obtain ⟨_, hpl, _, _⟩ := runDeductions_txns_chars q st.next_log_id st.now
          (get_active_recipe st) st.materials st.next_txn_id hknd t ht
        rw [hpl]
        simp
      rw [hold, List.nil_append, hnew, map_kind_change, g3]
      rfl
  · exact ⟨by rfl, by rfl⟩

/-- Witness for C2 at the §8 scenario `createProduction(100)`. -/
theorem create_production_exact_deduction_witness :
    (WF demoState ∧ (0 : Int) < 100 ∧
      create_production demoState 100 none = (CreateResult.ok demoLog, demoState1)) ∧
    ∀ p ∈ get_active_recipe demoState, ∃ m,
      demoState.materials.find? (fun x => x.name == p.1) = some m ∧
      demoState1.materials.find? (fun x => x.name == p.1)
        = some { m with quantity := m.quantity - p.2 * ((100 : Int) : ℚ) } ∧
      ((demoState1.transactions.filter (fun t =>
          t.production_log_id == some demoLog.id && t.material_id == m.id)).map
        (fun t => (t.transaction_type, t.quantity_change)))
        = [(TransactionType.production, -(p.2 * ((100 : Int) : ℚ)))] :=
  ⟨⟨by decide, by decide, by rfl⟩,
   create_production_exact_deduction.1 demoState 100 none demoLog demoState1
     (by decide) (by decide) (by rfl)⟩

/-- C1: every ledger entry written by `create_production`, `undo_production`
or `restock_material` satisfies
`quantity_after = quantity_before + quantity_change`, and the stored
quantity of the entry's material immediately after the operation equals the
`quantity_after` recorded in that operation's entry for the material. -/
theorem ledger_entries_consistent :
    (∀ (st : DBState) (q : Int) (notes : Option String) (log : ProductionLog)
        (st' : DBState), WF st →
      create_production st q notes = (CreateResult.ok log, st') →
      ∀ t ∈ st'.transactions.drop st.transactions.length,
        t.quantity_after = t.quantity_before + t.quantity_change ∧
        (st'.materials.find? (fun x => x.id == t.material_id)).map
            (fun m => m.quantity) = some t.quantity_after) ∧
    (∀ (st : DBState) (logId : Nat) (st' : DBState),
      ((prodTxnsFor st logId).map (fun t => t.material_id)).Nodup →
      undo_production st logId = (UndoResult.ok, st') →
      ∀ t ∈ st'.transactions.drop st.transactions.length,
        t.quantity_after = t.quantity_before + t.quantity_change ∧
        (st'.materials.find? (fun x => x.id == t.material_id)).map
            (fun m => m.quantity) = some t.quantity_after) ∧
    (∀ (st : DBState) (materialId : Nat) (quantity : ℚ) (notes : Option String)
        (msg : String) (st' : DBState),
      restock_material st materialId quantity notes = (RestockResult.ok msg, st') →
      ∀ t ∈ st'.transactions.drop st.transactions.length,
        t.quantity_after = t.quantity_before + t.quantity_change ∧
        (st'.materials.find? (fun x => x.id == t.material_id)).map
            (fun m => m.quantity) = some t.quantity_after) := by
  refine ⟨?_, ?_, ?_⟩
  · intro st q notes log st' hWF h t ht
    obtain ⟨hnames, hids, _, _, _, _, _⟩ := hWF
    obtain ⟨hmiss, hqpos, hlog, hok, hst'⟩ := create_production_ok_elim h
    have hknd := get_active_recipe_keys_nodup st
    rw [hst'] at ht
    simp only [List.drop_left] at ht
    constructor
    · exact (runDeductions_txns_chars q st.next_log_id st.now (get_active_recipe st)
        st.materials st.next_txn_id hknd t ht).2.2.1
    · rw [hst']
      exact runDeductions_final_qty q st.next_log_id st.now (get_active_recipe st)
        st.materials st.next_txn_id hknd hnames hids t ht
  · intro st logId st' hnodup h t ht
    obtain ⟨log, hfl, hnd, hok, hst'⟩ := undo_production_ok_elim h
    rw [hst'] at ht
    simp only [List.drop_left] at ht
    constructor
    · exact (runRestores_txns_chars logId st.now (prodTxnsFor st logId)
        st.materials st.next_txn_id t ht).2.2.1
    · rw [hst']
      exact runRestores_final_qty logId st.now (prodTxnsFor st logId)
        st.materials st.next_txn_id hnodup t ht
  · intro st materialId quantity notes msg st' h t ht
    obtain ⟨material, hfl, hge, hst'⟩ := restock_material_ok_elim h
    rw [hst'] at ht
    simp only [List.drop_left, List.mem_singleton] at ht
    subst ht
    constructor
    · rfl
    · rw [hst']
      simp only
      rw [find?_updateFirst_self (fun x => x.id == materialId)
        (fun x => { x with quantity := x.quantity + quantity }) st.materials
        (fun x => rfl), hfl]
      rfl

/-- Witness for C1: the scenario production, its undo, and a restock of 25 kg
of Wood Splints. -/
theorem ledger_entries_consistent_witness :
    (WF demoState ∧
      create_production demoState 100 none = (CreateResult.ok demoLog, demoState1) ∧
      ∀ t ∈ demoState1.transactions.drop demoState.transactions.length,
        t.quantity_after = t.quantity_before + t.quantity_change ∧
        (demoState1.materials.find? (fun x => x.id == t.material_id)).map
            (fun m => m.quantity) = some t.quantity_after) ∧
    (((prodTxnsFor demoState1 1).map (fun t => t.material_id)).Nodup ∧
      undo_production demoState1 1 = (UndoResult.ok, (undo_production demoState1 1).2) ∧
      ∀ t ∈ (undo_production demoState1 1).2.transactions.drop
          demoState1.transactions.length,
        t.quantity_after = t.quantity_before + t.quantity_change ∧
        ((undo_production demoState1 1).2.materials.find?
            (fun x => x.id == t.material_id)).map
            (fun m => m.quantity) = some t.quantity_after) ∧
    (restock_material demoState 1 25 none
        = (RestockResult.ok "Added 25 kg of Wood Splints",
           (restock_material demoState 1 25 none).2) ∧
      ∀ t ∈ (restock_material demoState 1 25 none).2.transactions.drop
          demoState.transactions.length,
        t.quantity_after = t.quantity_before + t.quantity_change ∧
        ((restock_material demoState 1 25 none).2.materials.find?
            (fun x => x.id == t.material_id)).map
            (fun m => m.quantity) = some t.quantity_after) :=
  ⟨⟨by decide, by rfl,
    ledger_entries_consistent.1 demoState 100 none demoLog demoState1
      (by decide) (by rfl)⟩,
   ⟨by decide, by rfl,
    ledger_entries_consistent.2.1 demoState1 1 (undo_production demoState1 1).2
      (by decide) (by rfl)⟩,
   ⟨by rfl,
    ledger_entries_consistent.2.2 demoState 1 25 none "Added 25 kg of Wood Splints"
      (restock_material demoState 1 25 none).2 (by rfl)⟩⟩

/-- C6 counterexample: in the §8 scenario state (fallback recipe, Glue at
0.0 per bundle), the successful `createProduction(100)` writes a
`'production'` ledger entry whose `quantity_change` is not negative — it is
0 for Glue — so the claimed strict sign discipline fails. -/
theorem ledger_sign_discipline_counterexample :
    ∃ t ∈ demoState1.transactions,
      t.transaction_type = TransactionType.production ∧ ¬ t.quantity_change < 0 := by
  decide

/-- C6 (amended): `'production'` entries written by a successful
`create_production` have `quantity_change ≤ 0` (zero exactly for
zero-per-bundle recipe items such as the fallback recipe's Glue);
`'restock'` entries written for a positive restock quantity have
`quantity_change > 0`; and every `'adjustment'` entry written by
`undo_production` negates the `quantity_change` of one of the log's
original `'production'` entries. -/
theorem ledger_sign_discipline :
    (∀ (st : DBState) (q : Int) (notes : Option String) (log : ProductionLog)
        (st' : DBState), WF st →
      create_production st q notes = (CreateResult.ok log, st') →
      ∀ t ∈ st'.transactions.drop st.transactions.length,
        t.transaction_type = TransactionType.production ∧ t.quantity_change ≤ 0) ∧
    (∀ (st : DBState) (materialId : Nat) (quantity : ℚ) (notes : Option String)
        (msg : String) (st' : DBState), 0 < quantity →
      restock_material st materialId quantity notes = (RestockResult.ok msg, st') →
      ∀ t ∈ st'.transactions.drop st.transactions.length,
        t.transaction_type = TransactionType.restock ∧ 0 < t.quantity_change) ∧
    (∀ (st : DBState) (logId : Nat) (st' : DBState),
      undo_production st logId = (UndoResult.ok, st') →
      ∀ t ∈ st'.transactions.drop st.transactions.length,
        t.transaction_type = TransactionType.adjustment ∧
        ∃ t0 ∈ prodTxnsFor st logId, t.quantity_change = -t0.quantity_change) := by
  refine ⟨?_, ?_, ?_⟩
  · intro st q notes log st' hWF h t ht
    obtain ⟨_, _, _, _, _, _, hrec⟩ := hWF
    obtain ⟨hmiss, hqpos, hlog, hok, hst'⟩ := create_production_ok_elim h
    have hknd := get_active_recipe_keys_nodup st
    rw [hst'] at ht
    simp only [List.drop_left] at ht
    obtain ⟨h1, _, _, p, hpmem, m, _, _, hchg⟩ :=
      runDeductions_txns_chars q st.next_log_id st.now (get_active_recipe st)
        st.materials st.next_txn_id hknd t ht
    refine ⟨h1, ?_⟩
    rw [hchg]
    have hp2 : (0 : ℚ) ≤ p.2 := get_active_recipe_nonneg st hrec p hpmem
    have hqc : (0 : ℚ) ≤ (q : ℚ) := by exact_mod_cast le_of_lt hqpos
    have := mul_nonneg hp2 hqc
    linarith
  · intro st materialId quantity notes msg st' hq h t ht
    obtain ⟨material, hfl, hge, hst'⟩ := restock_material_ok_elim h
    rw [hst'] at ht
    simp only [List.drop_left, List.mem_singleton] at ht
    subst ht
    exact ⟨rfl, hq⟩
  · intro st logId st' h t ht
    obtain ⟨log, hfl, hnd, hok, hst'⟩ := undo_production_ok_elim h
    rw [hst'] at ht
    simp only [List.drop_left] at ht
    obtain ⟨h1, _, _, t0, ht0, _, hchg⟩ :=
      runRestores_txns_chars logId st.now (prodTxnsFor st logId) st.materials
        st.next_txn_id t ht
    exact ⟨h1, t0, ht0, hchg⟩

/-- Witness for the amended C6 at the scenario production, a restock, and
the scenario undo. -/
theorem ledger_sign_discipline_witness :
    (WF demoState ∧
      create_production demoState 100 none = (CreateResult.ok demoLog, demoState1) ∧
      ∀ t ∈ demoState1.transactions.drop demoState.transactions.length,
        t.transaction_type = TransactionType.production ∧ t.quantity_change ≤ 0) ∧
    ((0 : ℚ) < 25 ∧
      restock_material demoState 1 25 none
        = (RestockResult.ok "Added 25 kg of Wood Splints",
           (restock_material demoState 1 25 none).2) ∧
      ∀ t ∈ (restock_material demoState 1 25 none).2.transactions.drop
          demoState.transactions.length,
        t.transaction_type = TransactionType.restock ∧ 0 < t.quantity_change) ∧
    (undo_production demoState1 1 = (UndoResult.ok, (undo_production demoState1 1).2) ∧
      ∀ t ∈ (undo_production demoState1 1).2.transactions.drop
          demoState1.transactions.length,
        t.transaction_type = TransactionType.adjustment ∧
        ∃ t0 ∈ prodTxnsFor demoState1 1, t.quantity_change = -t0.quantity_change) :=
  ⟨⟨by decide, by rfl,
    ledger_sign_discipline.1 demoState 100 none demoLog demoState1
      (by decide) (by rfl)⟩,
   ⟨by decide, by rfl,
    ledger_sign_discipline.2.1 demoState 1 25 none "Added 25 kg of Wood Splints"
      (restock_material demoState 1 25 none).2 (by decide) (by rfl)⟩,
   ⟨by rfl,
    ledger_sign_discipline.2.2 demoState1 1 (undo_production demoState1 1).2
      (by rfl)⟩⟩

/-- C3: a successful `create_production` immediately followed by
`undo_production` on the returned log's id succeeds, restores every affected
material to its exact pre-production quantity, appends one `'adjustment'`
entry negating each original `'production'` entry, and soft-deletes the
production log; in the §8 scenario the undo restores Wood 500, Chemical 100,
Cardboard 1000, Glue 50 and sets `is_deleted`. -/
theorem create_then_undo_roundtrip :
    (∀ (st : DBState) (q : Int) (notes : Option String) (log : ProductionLog)
        (st1 : DBState), WF st →
      create_production st q notes = (CreateResult.ok log, st1) →
      ∃ st2, undo_production st1 log.id = (UndoResult.ok, st2) ∧
        (∀ t ∈ prodTxnsFor st1 log.id,
          (st2.materials.find? (fun x => x.id == t.material_id)).map
              (fun m => m.quantity)
            = (st.materials.find? (fun x => x.id == t.material_id)).map
              (fun m => m.quantity)) ∧
        (st2.transactions.drop st1.transactions.length).map
            (fun t => (t.transaction_type, t.material_id, t.quantity_change))
          = (prodTxnsFor st1 log.id).map
              (fun t => (TransactionType.adjustment, t.material_id,
                -t.quantity_change)) ∧
        (st2.production_logs.find? (fun l => l.id == log.id)).map
            (fun l => l.is_deleted) = some true) ∧
    ((undo_production demoState1 1).1 = UndoResult.ok ∧
      (undo_production demoState1 1).2.materials.map (fun m => (m.name, m.quantity))
        = [("Wood Splints", 500), ("Chemical Paste", 100),
           ("Cardboard Sheets", 1000), ("Glue", 50)] ∧
      ((undo_production demoState1 1).2.production_logs.find?
          (fun l => l.id == 1)).map (fun l => l.is_deleted) = some true) := by
  constructor
  · intro st q notes log st1 hWF h
    obtain ⟨hnames, hids, hlogsnd, hqty, hlogid, htxnref, hrec⟩ := hWF
    obtain ⟨hmiss, hqpos, hlog, hok, hst1⟩ := create_production_ok_elim h
    have hknd := get_active_recipe_keys_nodup st
    have hlid : log.id = st.next_log_id := by rw [hlog]
    have hmatnd := runDeductions_matids_nodup q st.next_log_id st.now
      (get_active_recipe st) st.materials st.next_txn_id hknd hids
    have hchars := runDeductions_txns_chars q st.next_log_id st.now
      (get_active_recipe st) st.materials st.next_txn_id hknd
    have hfq := runDeductions_final_qty q st.next_log_id st.now
      (get_active_recipe st) st.materials st.next_txn_id hknd hnames hids
    have hbm := runDeductions_before_mem q st.next_log_id st.now
      (get_active_recipe st) st.materials st.next_txn_id hknd hnames hids
    set r := runDeductions q st.next_log_id st.now (get_active_recipe st)
      st.materials st.next_txn_id with hrdef
    have hm1 : st1.materials = r.mats := by rw [hst1]
    have ht1 : st1.transactions = st.transactions ++ r.txns := by rw [hst1]
    have hl1 : st1.production_logs = st.production_logs ++ [log] := by
      rw [hst1, hlog]
    have hn1 : st1.now = st.now := by rw [hst1]
    have hid1 : st1.next_txn_id = r.next_txn_id := by rw [hst1]
    have hsrc : prodTxnsFor st1 log.id = r.txns := by
      unfold prodTxnsFor
      rw [ht1, hlid, List.filter_append]
      have hold : st.transactions.filter (fun t =>
          t.production_log_id == some st.next_log_id &&
          decide (t.transaction_type = TransactionType.production)) = [] := by
        apply List.filter_eq_nil_iff.mpr
        intro t ht
        rw [txnref_not_new t st.next_log_id (htxnref t ht)]
        simp
      have hnew : r.txns.filter (fun t =>
          t.production_log_id == some st.next_log_id &&
          decide (t.transaction_type = TransactionType.production)) = r.txns := by
        apply List.filter_eq_self.mpr
        intro t ht
        obtain ⟨hty, hpl, _, _⟩ := hchars t ht
        rw [hpl, hty]
        simp
      rw [hold, hnew, List.nil_append]
    have hfl1 : st1.production_logs.find? (fun l => l.id == log.id) = some log := by
      rw [hl1, hlid]
      rw [find?_append_of_none _ _ _ ?_]
      · rw [List.find?_cons_of_pos _ (by simp [hlid])]
      · intro l hl
        have := hlogid l hl
        simp only [beq_eq_false_iff_ne, ne_eq]
        omega
    have hnd2 : log.is_deleted = false := by rw [hlog]
    have hsome : ∀ t ∈ r.txns,
        (r.mats.find? (fun x => x.id == t.material_id)).isSome = true := by
      intro t ht
      have h1 := hfq t ht
      cases hm1f : r.mats.find? (fun x => x.id == t.material_id) with
      | none => rw [hm1f] at h1; simp at h1
      | some m1 => simp
    have hbound : ∀ t ∈ r.txns, ∀ m1,
        r.mats.find? (fun x => x.id == t.material_id) = some m1 →
        0 ≤ m1.quantity - t.quantity_change := by
      intro t ht m1 hm1f
      have h1 := hfq t ht
      rw [hm1f] at h1
      simp only [Option.map_some'] at h1
      injection h1 with h1
      obtain ⟨_, _, habc, _⟩ := hchars t ht
      obtain ⟨m, hmmem, hmid, hbefore⟩ := hbm t ht
      have hq0 := hqty m hmmem
      rw [h1, habc, hbefore]
      linarith
    have hok2 : (runRestores log.id st1.now (prodTxnsFor st1 log.id) st1.materials
        st1.next_txn_id).ok = true := by
      rw [hsrc, hn1, hm1, hid1]
      exact runRestores_ok log.id st.now r.txns r.mats r.next_txn_id hmatnd hbound
    have hundo := undo_production_ok_intro log hfl1 hnd2 hok2
    refine ⟨_, hundo, ?_, ?_, ?_⟩
    · intro t ht
      rw [hsrc] at ht
      simp only
      rw [hsrc, hn1, hm1, hid1]
      have h1 := hfq t ht
      cases hm1f : r.mats.find? (fun x => x.id == t.material_id) with
      | none => rw [hm1f] at h1; simp at h1
      | some m1 =>
        rw [hm1f] at h1
        simp only [Option.map_some'] at h1
        injection h1 with h1
        have hspec := runRestores_spec log.id st.now r.txns r.mats r.next_txn_id
          hmatnd t ht m1 hm1f
        obtain ⟨_, _, habc, _⟩ := hchars t ht
        obtain ⟨m, hmmem, hmid, hbefore⟩ := hbm t ht
        rw [hspec, hmid, find?_id_of_mem_nodup st.materials m hmmem hids]
        simp only [Option.map_some', Option.some.injEq]
        rw [h1, habc, hbefore]
        ring
    · simp only
      rw [List.drop_left]
      rw [hsrc, hn1, hm1, hid1]
      exact runRestores_txns_map log.id st.now r.txns r.mats r.next_txn_id hsome
    · simp only
      rw [find?_updateFirst_self (fun l => l.id == log.id)
        (fun l => { l with is_deleted := true }) st1.production_logs
        (fun x => rfl), hfl1]
      rfl
  · exact ⟨by rfl, by rfl, by rfl⟩

/-- Witness for C3 at the §8 scenario. -/
theorem create_then_undo_roundtrip_witness :
    (WF demoState ∧
      create_production demoState 100 none = (CreateResult.ok demoLog, demoState1)) ∧
    ∃ st2, undo_production demoState1 demoLog.id = (UndoResult.ok, st2) ∧
      (∀ t ∈ prodTxnsFor demoState1 demoLog.id,
        (st2.materials.find? (fun x => x.id == t.material_id)).map
            (fun m => m.quantity)
          = (demoState.materials.find? (fun x => x.id == t.material_id)).map
            (fun m => m.quantity)) ∧
      (st2.transactions.drop demoState1.transactions.length).map
          (fun t => (t.transaction_type, t.material_id, t.quantity_change))
        = (prodTxnsFor demoState1 demoLog.id).map
            (fun t => (TransactionType.adjustment, t.material_id,
              -t.quantity_change)) ∧
      (st2.production_logs.find? (fun l => l.id == demoLog.id)).map
          (fun l => l.is_deleted) = some true :=
  ⟨⟨by decide, by rfl⟩,
   create_then_undo_roundtrip.1 demoState 100 none demoLog demoState1
     (by decide) (by rfl)⟩

/-- C9: `get_material_consumption` counts only `'production'` ledger entries
(dropping every non-production entry leaves the report unchanged), so a
successful `undo_production` — which appends only `'adjustment'` entries and
changes only stored quantities — leaves `total_consumed`,
`transaction_count` and the whole report unchanged: undone runs still count
as consumption. -/
theorem consumption_ignores_adjustments :
    (∀ (st : DBState) (materialId : Nat) (sd ed : Option Int),
      get_material_consumption st materialId sd ed =
      get_material_consumption
        { st with transactions := (st.transactions.filter
            (fun t => decide (t.transaction_type = TransactionType.production))) }
        materialId sd ed) ∧
    (∀ (st : DBState) (logId : Nat) (st' : DBState),
      undo_production st logId = (UndoResult.ok, st') →
      ∀ (materialId : Nat) (sd ed : Option Int),
        get_material_consumption st' materialId sd ed
          = get_material_consumption st materialId sd ed) := by
  constructor
  · intro st materialId sd ed
    simp only [get_material_consumption]
    rw [List.filter_filter]
    have hp : ∀ t ∈ st.transactions,
        ((t.material_id == materialId &&
            decide (t.transaction_type = TransactionType.production) &&
            inRange t.created_at sd ed) &&
          decide (t.transaction_type = TransactionType.production))
        = (t.material_id == materialId &&
            decide (t.transaction_type = TransactionType.production) &&
            inRange t.created_at sd ed) := by
      intro t _
      cases h1 : (t.material_id == materialId) <;>
        cases h2 : decide (t.transaction_type = TransactionType.production) <;>
        cases h3 : inRange t.created_at sd ed <;> simp
    rw [List.filter_congr hp]
  · intro st logId st' h materialId sd ed
    obtain ⟨log, hfl, hnd, hok, hst'⟩ := undo_production_ok_elim h
    have htadj := runRestores_txns_chars logId st.now (prodTxnsFor st logId)
      st.materials st.next_txn_id
    have hmk := runRestores_map_matKey logId st.now (prodTxnsFor st logId)
      st.materials st.next_txn_id
    rw [hst']
    simp only [get_material_consumption]
    have htx : (st.transactions ++ (runRestores logId st.now (prodTxnsFor st logId)
          st.materials st.next_txn_id).txns).filter (fun t =>
        t.material_id == materialId &&
        decide (t.transaction_type = TransactionType.production) &&
        inRange t.created_at sd ed)
        = st.transactions.filter (fun t =>
        t.material_id == materialId &&
        decide (t.transaction_type = TransactionType.production) &&
        inRange t.created_at sd ed) := by
      rw [List.filter_append]
      have hnil : (runRestores logId st.now (prodTxnsFor st logId)
          st.materials st.next_txn_id).txns.filter (fun t =>
          t.material_id == materialId &&
          decide (t.transaction_type = TransactionType.production) &&
          inRange t.created_at sd ed) = [] := by
        apply List.filter_eq_nil_iff.mpr
        intro t ht
        obtain ⟨hty, _, _, _⟩ := htadj t ht
        rw [hty]
        simp
      rw [hnil, List.append_nil]
    rw [htx]
    have hcongr := find?_id_matKey hmk materialId
    cases hfa : (runRestores logId st.now (prodTxnsFor st logId) st.materials
        st.next_txn_id).mats.find? (fun m => m.id == materialId) with
    | none =>
      rw [hfa] at hcongr
      cases hfb : st.materials.find? (fun m => m.id == materialId) with
      | none => rfl
      | some m2 => rw [hfb] at hcongr; simp at hcongr
    | some m1 =>
      rw [hfa] at hcongr
      cases hfb : st.materials.find? (fun m => m.id == materialId) with
      | none => rw [hfb] at hcongr; simp at hcongr
      | some m2 =>
        rw [hfb] at hcongr
        simp only [Option.map_some', Option.some.injEq, matKey, Prod.mk.injEq] at hcongr
        obtain ⟨_, hname, hunit, hprice⟩ := hcongr
        simp only [hname, hunit, hprice]

/-- Witness for C9: consumption of Chemical Paste before and after the
scenario undo. -/
theorem consumption_ignores_adjustments_witness :
    (get_material_consumption demoState1 2 none none =
      get_material_consumption
        { demoState1 with transactions := (demoState1.transactions.filter
            (fun t => decide (t.transaction_type = TransactionType.production))) }
        2 none none) ∧
    (undo_production demoState1 1 = (UndoResult.ok, (undo_production demoState1 1).2) ∧
      get_material_consumption (undo_production demoState1 1).2 2 none none
        = get_material_consumption demoState1 2 none none) :=
  ⟨consumption_ignores_adjustments.1 demoState1 2 none none,
   by rfl,
   consumption_ignores_adjustments.2 demoState1 1 (undo_production demoState1 1).2
     (by rfl) 2 none none⟩

/-- C10: `get_production_summary` aggregates only production logs whose
`is_deleted` flag is false — removing the soft-deleted logs from the state
changes nothing, so undone runs contribute nothing to any total — and with
no matching logs `avg_bundles_per_run` is 0. -/
theorem summary_excludes_deleted :
    (∀ (st : DBState) (sd ed : Option Int),
      get_production_summary st sd ed
        = get_production_summary
            { st with production_logs :=
                (st.production_logs.filter (fun l => !l.is_deleted)) } sd ed) ∧
    (∀ (st : DBState) (sd ed : Option Int),
      st.production_logs.filter (fun l => !l.is_deleted && inRange l.date sd ed) = [] →
      (get_production_summary st sd ed).avg_bundles_per_run = 0) := by
  constructor
  · intro st sd ed
    simp only [get_production_summary]
    rw [List.filter_filter]
    have hp : ∀ l ∈ st.production_logs,
        ((!l.is_deleted && inRange l.date sd ed) && !l.is_deleted)
          = (!l.is_deleted && inRange l.date sd ed) := by
      intro l _
      cases h1 : l.is_deleted <;> cases h2 : inRange l.date sd ed <;> simp
    rw [List.filter_congr hp]
    rfl
  · intro st sd ed hnil
    simp only [get_production_summary, hnil]
    simp

/-- Witness for C10: the scenario state after create and undo, where the only
log is soft-deleted, and the empty-range case. -/
theorem summary_excludes_deleted_witness :
    (get_production_summary (undo_production demoState1 1).2 none none
      = get_production_summary
          { (undo_production demoState1 1).2 with production_logs :=
              ((undo_production demoState1 1).2.production_logs.filter
                (fun l => !l.is_deleted)) } none none) ∧
    ((undo_production demoState1 1).2.production_logs.filter
        (fun l => !l.is_deleted && inRange l.date none none) = [] ∧
      (get_production_summary (undo_production demoState1 1).2 none none).avg_bundles_per_run
        = 0) :=
  ⟨summary_excludes_deleted.1 (undo_production demoState1 1).2 none none,
   by rfl,
   summary_excludes_deleted.2 (undo_production demoState1 1).2 none none (by rfl)⟩

end ConcreteEvaluation

end Payroll
